import Mathlib

/-!
# Canvas path and pixel helpers of `source/canvas.c`

A shallow embedding of the bound functions of `canvas.c` that do more than
forward their arguments: `setLineDash`, `getImageData`, `putImageData`,
`arc`, `quadraticCurveTo` and `arcTo`.

Conventions of the embedding.

* A bound function is a pure function from what it reads (its decoded
  arguments and what it queries from cairo) to the value it returns together
  with the list of cairo calls it issues, in order.  "The path is unchanged"
  is "no path call is issued".  An argument is given as what `JS_ToFloat64` or
  `JS_ToInt32` makes of it, `none` when the conversion fails.
* `uint32_t` arithmetic is arithmetic modulo `2 ^ 32`.  An `int` expression
  is evaluated in `ℤ` and checked by `int32`; signed overflow and an access
  outside a buffer are undefined in C and are `none` here.
* A finite `double` or `float` is a number of an ordered field `α` (every
  finite IEEE value is a rational, so `α = ℚ` runs the definitions).  The
  result of every floating operation passes through a rounding function:
  `rd` for an operation carried out in `double`, `rf` for one carried out in,
  or stored to, `float`.  `FloatEnv.exact` rounds nothing; `FloatEnv.ieee`
  rounds to nearest, ties to even, with `binary64` and `binary32`.  Every
  operation rounds on its own (no fused multiply-add).  NaN, the infinities,
  overflow to infinity and the sign of zero are not part of the embedding.
* `M_PI` and the functions of `math.h` are not part of the repository; they
  are fields of `FloatEnv`.  `fmod` is exact, as in IEEE arithmetic.
-/

set_option autoImplicit false

namespace Canvas

/-! ## Results and cairo calls -/

/-- The exceptions a bound function leaves pending when it returns `JS_EXCEPTION`. -/
inductive JSError
  | InvalidClass
  | TypeError
  | RangeError
  | OutOfMemory
  deriving DecidableEq, Repr

/-- The affine transform `cairo_matrix_t`: six `double`s. -/
structure cairo_matrix_t (α : Type) where
  xx : α
  yx : α
  xy : α
  yy : α
  x0 : α
  y0 : α
  deriving DecidableEq, Repr

/-- The cairo calls issued by the embedded functions, with their arguments. -/
inductive CairoOp (α : Type)
  | line_to (x y : α)
  | curve_to (x1 y1 x2 y2 x3 y3 : α)
  | arc (xc yc radius angle1 angle2 : α)
  | arc_negative (xc yc radius angle1 angle2 : α)
  | set_dash (dashes : List α) (offset : α)
  | translate (tx ty : α)
  | rotate (angle : α)
  | scale (sx sy : α)
  | set_matrix (matrix : cairo_matrix_t α)
  deriving DecidableEq, Repr

/-- What the embedded functions query from the cairo context `context->ctx`:
the current point (`cairo_get_current_point`) and the dash offset
(`cairo_get_dash`). -/
structure Cairo (α : Type) where
  point : α × α
  dash_offset : α
  deriving DecidableEq, Repr

/-- The values the embedded functions return: `JS_UNDEFINED`, `JS_EXCEPTION`
(with the exception left pending) or a new `ArrayBuffer` (its pixels). -/
inductive JSValue
  | JS_UNDEFINED
  | JS_EXCEPTION (pending : JSError)
  | ArrayBuffer (pixels : List Nat)
  deriving DecidableEq, Repr

/-- A call of a bound function on a context: the value returned and the
cairo calls issued, in order. -/
abbrev JSCall (α : Type) := JSValue × List (CairoOp α)

/-! ## `setLineDash` -/

/-- The array argument of `setLineDash` as the function sees it: `length` is
what `JS_ToUint32` makes of the `length` property (`none` when it fails),
`item i` what `JS_ToFloat64` makes of property `i` (`none` when it fails). -/
structure JSArrayLike (α : Type) where
  length : Option Nat
  item : Nat → Option α

/-- A JavaScript array whose entries are the given values; `none` is an entry
that `JS_ToFloat64` fails on. -/
def JSArrayLike.ofList {α : Type} (d : List (Option α)) : JSArrayLike α :=
  { length := some d.length, item := fun i => (d.get? i).join }

/-- A JavaScript array of numbers. -/
def JSArrayLike.ofNumbers {α : Type} (d : List α) : JSArrayLike α :=
  JSArrayLike.ofList (d.map some)

/-- The loop of `js_canvas_set_line_dash`, `n` iterations left, at index `i`:
decodes entry `i % length` into `dashes[i]` and counts the zero entries.
`none` is the early `return JS_UNDEFINED` on an entry that fails to decode. -/
def dash_loop {α : Type} [Zero α] [DecidableEq α] (item : Nat → Option α) (length : Nat) :
    Nat → Nat → List α → Nat → Option (List α × Nat)
  | 0, _, dashes, zero_dashes => some (dashes, zero_dashes)
  | n + 1, i, dashes, zero_dashes =>
    match item (i % length) with
    | none => none
    | some v =>
      dash_loop item length n (i + 1) (dashes ++ [v])
        (if v = 0 then (zero_dashes + 1) % 2 ^ 32 else zero_dashes)

/-- Embedding of `js_canvas_set_line_dash`. -/
def js_canvas_set_line_dash {α : Type} [Zero α] [DecidableEq α]
    (context : Option (Cairo α)) (array : JSArrayLike α) : JSCall α :=
  match context with
  | none => (.JS_EXCEPTION .InvalidClass, [])
  | some cr =>
    match array.length with
    | none => (.JS_EXCEPTION .TypeError, [])
    | some len =>
      let length := len % 2 ^ 32
      let num_dashes := if length % 2 = 1 then (length * 2) % 2 ^ 32 else length
      match dash_loop array.item length num_dashes 0 [] 0 with
      | none => (.JS_UNDEFINED, [])
      | some (dashes, zero_dashes) =>
        let offset := cr.dash_offset
        if zero_dashes = num_dashes then
          (.JS_UNDEFINED, [.set_dash [] offset])
        else
          (.JS_UNDEFINED, [.set_dash dashes offset])

/-! ## `getImageData` and `putImageData` -/

/-- Reads `buffer[i]`; `none` when `i` is outside the buffer. -/
def load (buffer : List Nat) (i : Int) : Option Nat :=
  if 0 ≤ i ∧ i < buffer.length then buffer.get? i.toNat else none

/-- Writes `buffer[i] = v`; `none` when `i` is outside the buffer. -/
def store (buffer : List Nat) (i : Int) (v : Nat) : Option (List Nat) :=
  if 0 ≤ i ∧ i < buffer.length then some (buffer.set i.toNat v) else none

/-- The loop `for (int i = a; i < b; i++) body`, started at `i` with `n`
iterations left (`n = (b - a).toNat` at the start).  `none` is undefined
behaviour inside the body. -/
def for_loop {σ : Type} (body : Int → σ → Option σ) : Nat → Int → σ → Option σ
  | 0, _, s => some s
  | n + 1, i, s => (body i s).bind (for_loop body n (i + 1))

/-- The value of an `int` expression: `none` when it does not fit in 32 bits
(signed overflow is undefined behaviour in C). -/
def int32 (z : Int) : Option Int :=
  if -2 ^ 31 ≤ z ∧ z < 2 ^ 31 then some z else none

/-- Embedding of `js_canvas_get_image_data`.  `a1 .. a5` are what
`JS_ToInt32` makes of `argv[1..5]`; `js_malloc n` tells whether the runtime
grants an allocation of `n` bytes.  The result is `none` on undefined
behaviour (an `int` overflow, an access outside a buffer), else the value
returned (the new buffer, in pixels) and the source buffer after the call. -/
def js_canvas_get_image_data (js_malloc : Nat → Bool) (buffer : List Nat)
    (a1 a2 a3 a4 a5 : Option Int) : Option (JSValue × List Nat) :=
  match a1, a2, a3, a4, a5 with
  | some _sx, some _sy, some sw, some sh, some cw =>
    match (int32 (sw * sh)).bind (fun t => int32 (t * 4)) with
    | none => none
    | some bytes =>
      let size : Nat := (bytes % 2 ^ 64).toNat
      if js_malloc size = false then
        some (.JS_EXCEPTION .OutOfMemory, buffer)
      else
        let new_buffer : List Nat := List.replicate (size / 4) 0
        (for_loop (fun y nb =>
            for_loop (fun x nb =>
                (int32 (y * cw)).bind fun t => (int32 (t + x)).bind fun i =>
                (load buffer i).bind fun v =>
                (int32 (y * sw)).bind fun u => (int32 (u + x)).bind fun j =>
                store nb j v)
              sw.toNat 0 nb)
          sh.toNat 0 new_buffer).map (fun nb => (.ArrayBuffer nb, buffer))
  | _, _, _, _, _ => some (.JS_EXCEPTION .TypeError, buffer)

/-- Embedding of `js_canvas_put_image_data` for a call whose `argv[0]` and
`argv[1]` are two distinct `ArrayBuffer`s (two separate memories): `a2 .. a8`
are what `JS_ToInt32` makes of `argv[2..8]`.  The result is `none` on
undefined behaviour (an `int` overflow, an access outside a buffer), else the
value returned and the source and destination buffers after the call.  The
call that passes one `ArrayBuffer` as both is
`js_canvas_put_image_data_same_buffer`. -/
def js_canvas_put_image_data (source_buffer dest_buffer : List Nat)
    (a2 a3 a4 a5 a6 a7 a8 : Option Int) : Option (JSValue × List Nat × List Nat) :=
  match a2, a3, a4, a5, a6, a7, a8 with
  | some dx, some dy, some dirty_x, some dirty_y, some dirty_width, some dirty_height, some cw =>
    (for_loop (fun y dest =>
        for_loop (fun x dest =>
            (int32 (dx + x)).bind fun dest_x =>
            (int32 (dy + y)).bind fun dest_y =>
            (int32 (y * dirty_width)).bind fun t => (int32 (t + x)).bind fun i =>
            (load source_buffer i).bind fun v =>
            (int32 (dest_y * cw)).bind fun u => (int32 (u + dest_x)).bind fun j =>
            store dest j v)
          (dirty_width - dirty_x).toNat dirty_x dest)
      (dirty_height - dirty_y).toNat dirty_y dest_buffer).map
      (fun dest => (.JS_UNDEFINED, source_buffer, dest))
  | _, _, _, _, _, _, _ => some (.JS_EXCEPTION .TypeError, source_buffer, dest_buffer)

/-- Embedding of `js_canvas_put_image_data` for a call whose `argv[0]` and
`argv[1]` are the same `ArrayBuffer` (the function does not compare them):
`source_buffer` and `dest_buffer` point to the same memory `buffer`, so each
read sees the writes made before it.  The result is `none` on undefined
behaviour, else the value returned and the buffer after the call. -/
def js_canvas_put_image_data_same_buffer (buffer : List Nat)
    (a2 a3 a4 a5 a6 a7 a8 : Option Int) : Option (JSValue × List Nat) :=
  match a2, a3, a4, a5, a6, a7, a8 with
  | some dx, some dy, some dirty_x, some dirty_y, some dirty_width, some dirty_height, some cw =>
    (for_loop (fun y buffer =>
        for_loop (fun x buffer =>
            (int32 (dx + x)).bind fun dest_x =>
            (int32 (dy + y)).bind fun dest_y =>
            (int32 (y * dirty_width)).bind fun t => (int32 (t + x)).bind fun i =>
            (load buffer i).bind fun v =>
            (int32 (dest_y * cw)).bind fun u => (int32 (u + dest_x)).bind fun j =>
            store buffer j v)
          (dirty_width - dirty_x).toNat dirty_x buffer)
      (dirty_height - dirty_y).toNat dirty_y buffer).map
      (fun buffer => (.JS_UNDEFINED, buffer))
  | _, _, _, _, _, _, _ => some (.JS_EXCEPTION .TypeError, buffer)

/-! ## Floating-point environment -/

/-- What the floating-point code depends on and the repository does not
define: how the result of an operation is rounded (`rd` in `double`, `rf` in
`float`), the constant `M_PI`, and the functions of `math.h` it calls. -/
structure FloatEnv (α : Type) where
  rd : α → α
  rf : α → α
  M_PI : α
  sqrt : α → α
  sqrtf : α → α
  acos : α → α
  tan : α → α

/-- Round to the nearest integer, ties to the even one. -/
def roundNE (q : ℚ) : ℤ :=
  let f := ⌊q⌋
  if q - f < 1 / 2 then f
  else if 1 / 2 < q - f then f + 1
  else if f % 2 = 0 then f else f + 1

/-- Round-to-nearest-even to a binary format of precision `p` bits whose
least exponent is `emin` (subnormal numbers included, no overflow). -/
def roundBinary (p : ℕ) (emin : ℤ) (q : ℚ) : ℚ :=
  if q = 0 then 0
  else
    let e := max (Int.log 2 |q| - (p - 1)) emin
    roundNE (q / 2 ^ e) * 2 ^ e

/-- Rounding to IEEE-754 binary64 (`double`), as if the exponent range had no
upper end: where the result is above `DBL_MAX` in absolute value the C
operation gives an infinity, which the embedding does not follow. -/
def binary64 (q : ℚ) : ℚ := roundBinary 53 (-1074) q

/-- `DBL_MAX`, the largest finite `double`. -/
def DBL_MAX : ℚ := (2 ^ 53 - 1) * 2 ^ 971

/-- Rounding to IEEE-754 binary32 (`float`). -/
def binary32 (q : ℚ) : ℚ := roundBinary 24 (-149) q

/-- The value of `M_PI` as a `double`, `0x400921FB54442D18`. -/
def M_PI_binary64 : ℚ := 884279719003555 / 2 ^ 48

/-- Exact arithmetic: no operation rounds. The `math.h` functions are left
as the given ones. -/
def FloatEnv.exact {α : Type} (pi : α) (sqrt acos tan : α → α) : FloatEnv α :=
  { rd := id, rf := id, M_PI := pi, sqrt := sqrt, sqrtf := sqrt, acos := acos, tan := tan }

/-- IEEE-754 arithmetic on `double` and `float` with the given `math.h` functions. -/
def FloatEnv.ieee (sqrt sqrtf acos tan : ℚ → ℚ) : FloatEnv ℚ :=
  { rd := binary64, rf := binary32, M_PI := M_PI_binary64, sqrt := sqrt, sqrtf := sqrtf,
    acos := acos, tan := tan }

/-! ## `arc` -/

section Arc

variable {α : Type} [LinearOrderedField α] [FloorRing α]

/-- C `fmod` for a positive divisor: `x - n * y` with `n` the quotient `x / y`
truncated toward zero.  The result is exact (it is not rounded). -/
def fmod (x y : α) : α :=
  let q := x / y
  let n : ℤ := if 0 ≤ q then ⌊q⌋ else ⌈q⌉
  x - n * y

/-- The static `twoPi = M_PI * 2.`. -/
def twoPi (E : FloatEnv α) : α := E.rd (E.M_PI * 2)

/-- Embedding of `canonicalizeAngle`: the new `(startAngle, endAngle)`. -/
def canonicalizeAngle (E : FloatEnv α) (startAngle endAngle : α) : α × α :=
  let newStartAngle := fmod startAngle (twoPi E)
  let newStartAngle :=
    if newStartAngle < 0 then
      let newStartAngle := E.rd (newStartAngle + twoPi E)
      if newStartAngle ≥ twoPi E then E.rd (newStartAngle - twoPi E) else newStartAngle
    else newStartAngle
  let delta := E.rd (newStartAngle - startAngle)
  (newStartAngle, E.rd (endAngle + delta))

/-- Embedding of `adjustEndAngle`, for angles whose differences and sums are
finite: an operation of the C function that overflows gives an infinity (and
`fmod` of an infinity a NaN), which a rounding `rd` to a number does not
express. -/
def adjustEndAngle (E : FloatEnv α) (startAngle endAngle : α) (counterclockwise : Bool) : α :=
  if !counterclockwise && E.rd (endAngle - startAngle) ≥ twoPi E then
    E.rd (startAngle + twoPi E)
  else if counterclockwise && E.rd (startAngle - endAngle) ≥ twoPi E then
    E.rd (startAngle - twoPi E)
  else if !counterclockwise && startAngle > endAngle then
    E.rd (startAngle + E.rd (twoPi E - fmod (E.rd (startAngle - endAngle)) (twoPi E)))
  else if counterclockwise && startAngle < endAngle then
    E.rd (startAngle - E.rd (twoPi E - fmod (E.rd (endAngle - startAngle)) (twoPi E)))
  else endAngle

/-- Embedding of `js_canvas_arc`: `a1 .. a5` are what `JS_ToFloat64` makes of
`argv[1..5]` (`none` when it fails), `counterclockwise` is `JS_ToBool(argv[6])`. -/
def js_canvas_arc (E : FloatEnv α) (context : Option (Cairo α)) (a1 a2 a3 a4 a5 : Option α)
    (counterclockwise : Bool) : JSCall α :=
  match context with
  | none => (.JS_EXCEPTION .InvalidClass, [])
  | some _ =>
    match a1, a2, a3, a4, a5 with
    | some x, some y, some radius, some startAngle, some endAngle =>
      if radius < 0 then (.JS_EXCEPTION .RangeError, [])
      else
        let (startAngle, endAngle) := canonicalizeAngle E startAngle endAngle
        let endAngle := adjustEndAngle E startAngle endAngle counterclockwise
        if counterclockwise then (.JS_UNDEFINED, [.arc_negative x y radius startAngle endAngle])
        else (.JS_UNDEFINED, [.arc x y radius startAngle endAngle])
    | _, _, _, _, _ => (.JS_EXCEPTION .TypeError, [])

/-! ## `quadraticCurveTo` -/

/-- Embedding of `js_canvas_quadratic_curve_to`. -/
def js_canvas_quadratic_curve_to (E : FloatEnv α) (context : Option (Cairo α))
    (a1 a2 a3 a4 : Option α) : JSCall α :=
  match context with
  | none => (.JS_EXCEPTION .InvalidClass, [])
  | some cr =>
    match a1, a2, a3, a4 with
    | some x1, some y1, some x2, some y2 =>
      let (x, y) := cr.point
      let (x, y) := if 0 = x ∧ 0 = y then (x1, y1) else (x, y)
      (.JS_UNDEFINED, [.curve_to
        (E.rd (x + E.rd (E.rd (2 / 3) * E.rd (x1 - x))))
        (E.rd (y + E.rd (E.rd (2 / 3) * E.rd (y1 - y))))
        (E.rd (x2 + E.rd (E.rd (2 / 3) * E.rd (x1 - x2))))
        (E.rd (y2 + E.rd (E.rd (2 / 3) * E.rd (y1 - y2))))
        x2 y2])
    | _, _, _, _ => (.JS_EXCEPTION .TypeError, [])

/-! ## `arcTo` -/

/-- The `Point` struct: two `float` fields. -/
structure Point (α : Type) where
  x : α
  y : α

/-- Embedding of `js_canvas_arc_to`.  A `double` stored to a `float` (a
`Point` field, `radius`, the `float` locals) is rounded by `rf`; an operation
on two `float` operands rounds by `rf`, one with a `double` operand by `rd`;
`sqrtf` returns a `float`, the other `math.h` functions a `double`. -/
def js_canvas_arc_to (E : FloatEnv α) (context : Option (Cairo α)) (a1 a2 a3 a4 a5 : Option α) :
    JSCall α :=
  match context with
  | none => (.JS_EXCEPTION .InvalidClass, [])
  | some cr =>
    match a1, a2, a3, a4, a5 with
    | some args0, some args1, some args2, some args3, some args4 =>
      let (x, y) := cr.point
      let p0 : Point α := ⟨E.rf x, E.rf y⟩
      let p1 : Point α := ⟨E.rf args0, E.rf args1⟩
      let p2 : Point α := ⟨E.rf args2, E.rf args3⟩
      let radius := E.rf args4
      if (p1.x = p0.x ∧ p1.y = p0.y) ∨ (p1.x = p2.x ∧ p1.y = p2.y) ∨ radius = 0 then
        (.JS_UNDEFINED, [.line_to p1.x p1.y])
      else
        let p1p0 : Point α := ⟨E.rf (p0.x - p1.x), E.rf (p0.y - p1.y)⟩
        let p1p2 : Point α := ⟨E.rf (p2.x - p1.x), E.rf (p2.y - p1.y)⟩
        let p1p0_length := E.sqrtf (E.rf (E.rf (p1p0.x * p1p0.x) + E.rf (p1p0.y * p1p0.y)))
        let p1p2_length := E.sqrtf (E.rf (E.rf (p1p2.x * p1p2.x) + E.rf (p1p2.y * p1p2.y)))
        let cos_phi := E.rf (E.rf (E.rf (p1p0.x * p1p2.x) + E.rf (p1p0.y * p1p2.y))
          / E.rf (p1p0_length * p1p2_length))
        if -1 = cos_phi then
          (.JS_UNDEFINED, [.line_to p1.x p1.y])
        else if 1 = cos_phi then
          let max_length : α := 65535
          let factor_max := E.rf (max_length / p1p0_length)
          let ep : Point α := ⟨E.rf (E.rd (p0.x + E.rd (factor_max * p1p0.x))),
            E.rf (E.rd (p0.y + E.rd (factor_max * p1p0.y)))⟩
          (.JS_UNDEFINED, [.line_to ep.x ep.y])
        else
          let tangent := E.rf (E.rd (radius / E.tan (E.rd (E.acos cos_phi / 2))))
          let factor_p1p0 := E.rf (tangent / p1p0_length)
          let t_p1p0 : Point α := ⟨E.rf (p1.x + E.rf (factor_p1p0 * p1p0.x)),
            E.rf (p1.y + E.rf (factor_p1p0 * p1p0.y))⟩
          let orth_p1p0 : Point α := ⟨p1p0.y, -p1p0.x⟩
          let orth_p1p0_length := E.rf (E.sqrt
            (E.rf (E.rf (orth_p1p0.x * orth_p1p0.x) + E.rf (orth_p1p0.y * orth_p1p0.y))))
          let factor_ra := E.rf (radius / orth_p1p0_length)
          let cos_alpha := E.rf (E.rf (E.rf (orth_p1p0.x * p1p2.x) + E.rf (orth_p1p0.y * p1p2.y))
            / E.rf (orth_p1p0_length * p1p2_length))
          let orth_p1p0 : Point α :=
            if cos_alpha < 0 then ⟨-orth_p1p0.x, -orth_p1p0.y⟩ else orth_p1p0
          let p : Point α := ⟨E.rf (t_p1p0.x + E.rf (factor_ra * orth_p1p0.x)),
            E.rf (t_p1p0.y + E.rf (factor_ra * orth_p1p0.y))⟩
          let orth_p1p0 : Point α := ⟨-orth_p1p0.x, -orth_p1p0.y⟩
          let sa := E.rf (E.acos (E.rf (orth_p1p0.x / orth_p1p0_length)))
          let sa := if orth_p1p0.y < 0 then E.rf (E.rd (E.rd (2 * E.M_PI) - sa)) else sa
          let factor_p1p2 := E.rf (tangent / p1p2_length)
          let t_p1p2 : Point α := ⟨E.rf (p1.x + E.rf (factor_p1p2 * p1p2.x)),
            E.rf (p1.y + E.rf (factor_p1p2 * p1p2.y))⟩
          let orth_p1p2 : Point α := ⟨E.rf (t_p1p2.x - p.x), E.rf (t_p1p2.y - p.y)⟩
          let orth_p1p2_length := E.sqrtf
            (E.rf (E.rf (orth_p1p2.x * orth_p1p2.x) + E.rf (orth_p1p2.y * orth_p1p2.y)))
          let ea := E.rf (E.acos (E.rf (orth_p1p2.x / orth_p1p2_length)))
          let ea := if orth_p1p2.y < 0 then E.rf (E.rd (E.rd (2 * E.M_PI) - ea)) else ea
          let anticlockwise : Bool := false
          let anticlockwise : Bool :=
            if sa > ea ∧ E.rf (sa - ea) < E.M_PI then true else anticlockwise
          let anticlockwise : Bool :=
            if sa < ea ∧ E.rf (ea - sa) > E.M_PI then true else anticlockwise
          if anticlockwise = true ∧ E.rd (E.M_PI * 2) ≠ radius then
            (.JS_UNDEFINED, [.line_to t_p1p0.x t_p1p0.y, .arc_negative p.x p.y radius sa ea])
          else
            (.JS_UNDEFINED, [.line_to t_p1p0.x t_p1p0.y, .arc p.x p.y radius sa ea])
    | _, _, _, _, _ => (.JS_EXCEPTION .TypeError, [])

end Arc

/-! ## `arcTo`: the quantities the claims name -/

/-- The `cos_phi` that `js_canvas_arc_to` computes once the first degenerate
test has failed: the same expressions as in `js_canvas_arc_to`. -/
def arc_to_cos_phi {α : Type} [LinearOrderedField α] (E : FloatEnv α) (cr : Cairo α)
    (args0 args1 args2 args3 : α) : α :=
  let (x, y) := cr.point
  let p0 : Point α := ⟨E.rf x, E.rf y⟩
  let p1 : Point α := ⟨E.rf args0, E.rf args1⟩
  let p2 : Point α := ⟨E.rf args2, E.rf args3⟩
  let p1p0 : Point α := ⟨E.rf (p0.x - p1.x), E.rf (p0.y - p1.y)⟩
  let p1p2 : Point α := ⟨E.rf (p2.x - p1.x), E.rf (p2.y - p1.y)⟩
  let p1p0_length := E.sqrtf (E.rf (E.rf (p1p0.x * p1p0.x) + E.rf (p1p0.y * p1p0.y)))
  let p1p2_length := E.sqrtf (E.rf (E.rf (p1p2.x * p1p2.x) + E.rf (p1p2.y * p1p2.y)))
  E.rf (E.rf (E.rf (p1p0.x * p1p2.x) + E.rf (p1p0.y * p1p2.y))
    / E.rf (p1p0_length * p1p2_length))

/-- What `js_canvas_arc_to` hands to cairo in the general case: the first
tangent point, the centre, the radius and the two angles. -/
structure ArcToGeneral (α : Type) where
  t_p1p0 : Point α
  p : Point α
  radius : α
  sa : α
  ea : α

/-- The quantities `js_canvas_arc_to` computes in the general case (after the
tests on the points, the radius and `cos_phi`): the same expressions as in
`js_canvas_arc_to`. -/
def arc_to_general_case {α : Type} [LinearOrderedField α] (E : FloatEnv α) (cr : Cairo α)
    (args0 args1 args2 args3 args4 : α) : ArcToGeneral α :=
  let (x, y) := cr.point
  let p0 : Point α := ⟨E.rf x, E.rf y⟩
  let p1 : Point α := ⟨E.rf args0, E.rf args1⟩
  let p2 : Point α := ⟨E.rf args2, E.rf args3⟩
  let radius := E.rf args4
  let p1p0 : Point α := ⟨E.rf (p0.x - p1.x), E.rf (p0.y - p1.y)⟩
  let p1p2 : Point α := ⟨E.rf (p2.x - p1.x), E.rf (p2.y - p1.y)⟩
  let p1p0_length := E.sqrtf (E.rf (E.rf (p1p0.x * p1p0.x) + E.rf (p1p0.y * p1p0.y)))
  let p1p2_length := E.sqrtf (E.rf (E.rf (p1p2.x * p1p2.x) + E.rf (p1p2.y * p1p2.y)))
  let cos_phi := E.rf (E.rf (E.rf (p1p0.x * p1p2.x) + E.rf (p1p0.y * p1p2.y))
    / E.rf (p1p0_length * p1p2_length))
  let tangent := E.rf (E.rd (radius / E.tan (E.rd (E.acos cos_phi / 2))))
  let factor_p1p0 := E.rf (tangent / p1p0_length)
  let t_p1p0 : Point α := ⟨E.rf (p1.x + E.rf (factor_p1p0 * p1p0.x)),
    E.rf (p1.y + E.rf (factor_p1p0 * p1p0.y))⟩
  let orth_p1p0 : Point α := ⟨p1p0.y, -p1p0.x⟩
  let orth_p1p0_length := E.rf (E.sqrt
    (E.rf (E.rf (orth_p1p0.x * orth_p1p0.x) + E.rf (orth_p1p0.y * orth_p1p0.y))))
  let factor_ra := E.rf (radius / orth_p1p0_length)
  let cos_alpha := E.rf (E.rf (E.rf (orth_p1p0.x * p1p2.x) + E.rf (orth_p1p0.y * p1p2.y))
    / E.rf (orth_p1p0_length * p1p2_length))
  let orth_p1p0 : Point α :=
    if cos_alpha < 0 then ⟨-orth_p1p0.x, -orth_p1p0.y⟩ else orth_p1p0
  let p : Point α := ⟨E.rf (t_p1p0.x + E.rf (factor_ra * orth_p1p0.x)),
    E.rf (t_p1p0.y + E.rf (factor_ra * orth_p1p0.y))⟩
  let orth_p1p0 : Point α := ⟨-orth_p1p0.x, -orth_p1p0.y⟩
  let sa := E.rf (E.acos (E.rf (orth_p1p0.x / orth_p1p0_length)))
  let sa := if orth_p1p0.y < 0 then E.rf (E.rd (E.rd (2 * E.M_PI) - sa)) else sa
  let factor_p1p2 := E.rf (tangent / p1p2_length)
  let t_p1p2 : Point α := ⟨E.rf (p1.x + E.rf (factor_p1p2 * p1p2.x)),
    E.rf (p1.y + E.rf (factor_p1p2 * p1p2.y))⟩
  let orth_p1p2 : Point α := ⟨E.rf (t_p1p2.x - p.x), E.rf (t_p1p2.y - p.y)⟩
  let orth_p1p2_length := E.sqrtf
    (E.rf (E.rf (orth_p1p2.x * orth_p1p2.x) + E.rf (orth_p1p2.y * orth_p1p2.y)))
  let ea := E.rf (E.acos (E.rf (orth_p1p2.x / orth_p1p2_length)))
  let ea := if orth_p1p2.y < 0 then E.rf (E.rd (E.rd (2 * E.M_PI) - ea)) else ea
  ⟨t_p1p0, p, radius, sa, ea⟩

/-- The far point `ep` of `js_canvas_arc_to` (the case `1 == cos_phi`): the
same expressions as in `js_canvas_arc_to`. -/
def arc_to_far_point {α : Type} [LinearOrderedField α] (E : FloatEnv α) (cr : Cairo α)
    (args0 args1 : α) : Point α :=
  let (x, y) := cr.point
  let p0 : Point α := ⟨E.rf x, E.rf y⟩
  let p1 : Point α := ⟨E.rf args0, E.rf args1⟩
  let p1p0 : Point α := ⟨E.rf (p0.x - p1.x), E.rf (p0.y - p1.y)⟩
  let p1p0_length := E.sqrtf (E.rf (E.rf (p1p0.x * p1p0.x) + E.rf (p1p0.y * p1p0.y)))
  let max_length : α := 65535
  let factor_max := E.rf (max_length / p1p0_length)
  ⟨E.rf (E.rd (p0.x + E.rd (factor_max * p1p0.x))),
    E.rf (E.rd (p0.y + E.rd (factor_max * p1p0.y)))⟩

/-- The flag `anticlockwise` of `js_canvas_arc_to` for the angles `sa`, `ea`. -/
def arc_to_anticlockwise {α : Type} [LinearOrderedField α] (E : FloatEnv α) (sa ea : α) : Bool :=
  let anticlockwise : Bool := false
  let anticlockwise : Bool :=
    if sa > ea ∧ E.rf (sa - ea) < E.M_PI then true else anticlockwise
  let anticlockwise : Bool :=
    if sa < ea ∧ E.rf (ea - sa) > E.M_PI then true else anticlockwise
  anticlockwise

/-- The angle the reverse arc primitive sweeps from `angle1` down to
`angle2`, for angles at most one turn apart: cairo decreases an `angle2`
above `angle1` by a full turn. -/
def reverse_sweep {α : Type} [LinearOrderedField α] (turn angle1 angle2 : α) : α :=
  if angle2 > angle1 then angle1 - (angle2 - turn) else angle1 - angle2

/-- IEEE-754 square root in a binary format of precision `p`: the value of
the format nearest to the square root of `x` (`0` for `x ≤ 0`).  The integer
square root of `x` scaled by `2 ^ (2 * h)` has at least `p + 4` bits, so
rounding it, moved off the integer when the root is not exact, rounds the
root itself. -/
def sqrtBinary (p : ℕ) (emin : ℤ) (x : ℚ) : ℚ :=
  if x ≤ 0 then 0
  else
    let h : ℤ := (2 * ((p : ℤ) + 4) - Int.log 2 x + 1) / 2
    let m : ℚ := x * 2 ^ (2 * h)
    let s : ℕ := Nat.sqrt ⌊m⌋.toNat
    let approx : ℚ := if ((s * s : ℕ) : ℚ) = m then (s : ℚ) else (s : ℚ) + 1 / 2
    roundBinary p emin (approx / 2 ^ h)

/-! ## `ellipse` -/

/-- Embedding of `js_canvas_ellipse`: `a1 .. a7` are what `JS_ToFloat64`
makes of `argv[1..7]` (`args[0..6]`: x, y, radiusX, radiusY, rotation,
startAngle, endAngle), `anticlockwise` is `JS_ToBool(argv[8])`, and
`save_matrix` is the transform `cairo_get_matrix` reads.  The guard of the
reverse arc compares `M_PI * 2` with `args[4]`, the rotation. -/
def js_canvas_ellipse {α : Type} [LinearOrderedField α] (E : FloatEnv α)
    (context : Option (Cairo α)) (save_matrix : cairo_matrix_t α)
    (a1 a2 a3 a4 a5 a6 a7 : Option α) (anticlockwise : Bool) : JSCall α :=
  match context with
  | none => (.JS_EXCEPTION .InvalidClass, [])
  | some _ =>
    match a1, a2, a3, a4, a5, a6, a7 with
    | some x, some y, some radiusX, some radiusY, some rotation, some startAngle,
        some endAngle =>
      if radiusX = 0 ∨ radiusY = 0 then (.JS_UNDEFINED, [])
      else
        let xRatio := E.rd (radiusX / radiusY)
        let args4 := rotation
        (.JS_UNDEFINED,
          [.translate x y, .rotate rotation, .scale xRatio 1, .translate (-x) (-y),
            if anticlockwise = true ∧ E.rd (E.M_PI * 2) ≠ args4 then
              .arc_negative x y radiusY startAngle endAngle
            else
              .arc x y radiusY startAngle endAngle,
            .set_matrix save_matrix])
    | _, _, _, _, _, _, _ => (.JS_EXCEPTION .TypeError, [])

theorem load_of_bounds {buffer : List Nat} {i : Int} (h0 : 0 ≤ i) (h1 : i < buffer.length) :
    ∃ v, load buffer i = some v ∧ buffer[i.toNat]? = some v := by
  have hlt : i.toNat < buffer.length := by omega
  refine ⟨buffer[i.toNat], ?_, ?_⟩
  · simp [load, h0, h1, List.get?_eq_getElem?, List.getElem?_eq_getElem hlt]
  · exact List.getElem?_eq_getElem hlt

theorem store_of_bounds {buffer : List Nat} {i : Int} (v : Nat) (h0 : 0 ≤ i)
    (h1 : i < buffer.length) : store buffer i v = some (buffer.set i.toNat v) := by
  simp [store, h0, h1]

theorem int32_of_fits {z : Int} (h1 : -2 ^ 31 ≤ z) (h2 : z < 2 ^ 31) : int32 z = some z := by
  rw [int32, if_pos ⟨h1, h2⟩]

/-- The product `y * W` in the source index of the last column `W - 1` of a
row fits in an `int` when that index is inside a buffer of fewer than `2 ^ 29`
pixels. -/
theorem row_product_fits (y W S : Int) (hW : W < 2 ^ 31) (hS : S < 2 ^ 29)
    (h_hi0 : 0 ≤ y * W + (W - 1)) (h_hi : y * W + (W - 1) < S) :
    -2 ^ 31 ≤ y * W ∧ y * W < 2 ^ 31 := by
  constructor
  · omega
  · by_cases h1 : 1 ≤ W
    · omega
    · have hW0 : W ≤ 0 := by omega
      have hP : 1 ≤ (y + 1) * W := by
        have : (y + 1) * W = y * W + W := by ring
        omega
      have hy : y + 1 ≤ -1 := by
        by_contra hcon
        have h0 : 0 ≤ y + 1 := by omega
        have : (y + 1) * W ≤ 0 := mul_nonpos_of_nonneg_of_nonpos h0 hW0
        omega
      have hWP : -W ≤ (y + 1) * W := by
        have : 0 ≤ (y + 2) * W := mul_nonneg_of_nonpos_of_nonpos (by omega) hW0
        have e : (y + 2) * W = (y + 1) * W + W := by ring
        omega
      have e : (y + 1) * W = y * W + W := by ring
      omega

/-- A row number `r` and the product `r * cw` fit in an `int` when the index
`r * cw + c`, with the column `c` inside the row, is inside a buffer of fewer
than `2 ^ 29` pixels. -/
theorem stride_row_fits (r cw c L : Int) (hc0 : 0 ≤ c) (hc1 : c < cw) (hL : L < 2 ^ 29)
    (h0 : 0 ≤ r * cw + c) (h1 : r * cw + c < L) :
    0 ≤ r ∧ r < 2 ^ 31 ∧ 0 ≤ r * cw ∧ r * cw < 2 ^ 31 := by
  have hcw : 0 < cw := by omega
  have hr : 0 ≤ r := by
    by_contra hcon
    have : (r + 1) * cw ≤ 0 := mul_nonpos_of_nonpos_of_nonneg (by omega) hcw.le
    have e : (r + 1) * cw = r * cw + cw := by ring
    omega
  have hrc : r ≤ r * cw := by
    have : 0 ≤ r * (cw - 1) := mul_nonneg hr (by omega)
    have e : r * (cw - 1) = r * cw - r := by ring
    omega
  refine ⟨hr, by omega, by omega, by omega⟩

theorem for_loop_congr {σ : Type} (f g : Int → σ → Option σ) :
    ∀ (n : Nat) (i : Int) (s : σ), (∀ j, i ≤ j → j < i + n → ∀ t, f j t = g j t) →
      for_loop f n i s = for_loop g n i s := by
  intro n
  induction n with
  | zero => intro i s _; rfl
  | succ n ih =>
    intro i s h
    rw [for_loop, for_loop, h i (le_refl _) (by push_cast; omega) s]
    cases hg : g i s with
    | none => rfl
    | some t =>
      simp only [Option.some_bind]
      exact ih (i + 1) t (fun j h1 h2 u => h j (by omega) (by push_cast; omega) u)

/-- Nested loops whose bodies agree on the index range run alike. -/
theorem for_loop_congr2 {σ : Type} (f g : Int → Int → σ → Option σ) (nx : Nat) (xa : Int) :
    ∀ (m : Nat) (y0 : Int) (s : σ),
      (∀ y x, y0 ≤ y → y < y0 + m → xa ≤ x → x < xa + nx → ∀ t, f y x t = g y x t) →
      for_loop (fun y d => for_loop (f y) nx xa d) m y0 s
        = for_loop (fun y d => for_loop (g y) nx xa d) m y0 s := by
  intro m y0 s h
  apply for_loop_congr
  intro y h1 h2 t
  exact for_loop_congr (f y) (g y) nx xa t (fun x h3 h4 u => h y x h1 h2 h3 h4 u)

/-- One row of a copy: the loop over `x` that reads `src[R x]` and writes it
to `d[base + x]` replaces the cells `base + x0 .. base + x0 + n - 1` of `d`. -/
theorem copy_row_spec (src : List Nat) (R : Int → Int) (base : Int) :
    ∀ (n : Nat) (x0 : Int) (d : List Nat),
      (∀ x, x0 ≤ x → x < x0 + n → 0 ≤ R x ∧ R x < src.length) →
      (∀ x, x0 ≤ x → x < x0 + n → 0 ≤ base + x ∧ base + x < d.length) →
      ∃ d', for_loop (fun x nb => (load src (R x)).bind (fun v => store nb (base + x) v))
              n x0 d = some d' ∧
        d'.length = d.length ∧
        ∀ i : Nat, d'[i]? =
          if base + x0 ≤ (i : Int) ∧ (i : Int) < base + x0 + n then
            src[(R ((i : Int) - base)).toNat]?
          else d[i]? := by
  intro n
  induction n with
  | zero =>
    intro x0 d _ _
    refine ⟨d, rfl, rfl, ?_⟩
    intro i
    have : ¬ (base + x0 ≤ (i : Int) ∧ (i : Int) < base + x0 + ((0 : Nat) : Int)) := by omega
    rw [if_neg this]
  | succ n ih =>
    intro x0 d hsrc hdst
    obtain ⟨hr0, hr1⟩ := hsrc x0 (le_refl _) (by push_cast; omega)
    obtain ⟨hw0, hw1⟩ := hdst x0 (le_refl _) (by push_cast; omega)
    obtain ⟨v, hv, hv'⟩ := load_of_bounds hr0 hr1
    have hst : store d (base + x0) v = some (d.set (base + x0).toNat v) :=
      store_of_bounds v hw0 hw1
    obtain ⟨d', hd', hlen, hget⟩ := ih (x0 + 1) (d.set (base + x0).toNat v)
      (fun x h1 h2 => hsrc x (by omega) (by push_cast; omega))
      (fun x h1 h2 => by
        have := hdst x (by omega) (by push_cast; omega)
        simpa using this)
    refine ⟨d', ?_, ?_, ?_⟩
    · rw [for_loop]
      simp only [hv, Option.some_bind, hst]
      exact hd'
    · simpa using hlen
    · intro i
      rw [hget i, List.getElem?_set]
      by_cases hi : (i : Int) = base + x0
      · have h1 : ¬ (base + (x0 + 1) ≤ (i : Int) ∧ (i : Int) < base + (x0 + 1) + (n : Int)) := by
          omega
        have h2 : base + x0 ≤ (i : Int) ∧ (i : Int) < base + x0 + ((n + 1 : Nat) : Int) := by
          push_cast; omega
        have h3 : (base + x0).toNat = i := by omega
        have h4 : i < d.length := by omega
        have h5 : (i : Int) - base = x0 := by omega
        simp only [h1, h2, h3, h4, h5, if_true, if_false, and_self]
        simp [hv']
      · have h3 : ¬ (base + x0).toNat = i := by omega
        by_cases hr : base + (x0 + 1) ≤ (i : Int) ∧ (i : Int) < base + (x0 + 1) + (n : Int)
        · have h2 : base + x0 ≤ (i : Int) ∧ (i : Int) < base + x0 + ((n + 1 : Nat) : Int) := by
            push_cast; omega
          simp only [hr, h2, and_self, if_true]
        · have h2 : ¬ (base + x0 ≤ (i : Int) ∧ (i : Int) < base + x0 + ((n + 1 : Nat) : Int)) := by
            push_cast; omega
          simp only [hr, h2, h3, if_false]

/-- A rectangle copy: the nested loops that read `src[R y x]` and write it to
`d[B y + x]`, over rows whose written cells do not overlap.  Every written
cell ends with the value read for it; every other cell keeps its value. -/
theorem copy_rect_spec (src : List Nat) (R : Int → Int → Int) (B : Int → Int) (nx : Nat)
    (xa : Int) :
    ∀ (m : Nat) (y0 : Int) (d : List Nat),
      (∀ y x, y0 ≤ y → y < y0 + m → xa ≤ x → x < xa + nx →
        0 ≤ R y x ∧ R y x < src.length) →
      (∀ y x, y0 ≤ y → y < y0 + m → xa ≤ x → x < xa + nx →
        0 ≤ B y + x ∧ B y + x < d.length) →
      (∀ y y2 x x2, y0 ≤ y → y < y2 → y2 < y0 + m → xa ≤ x → x < xa + nx → xa ≤ x2 →
        x2 < xa + nx → B y + x ≠ B y2 + x2) →
      ∃ d', for_loop (fun y d =>
              for_loop (fun x nb => (load src (R y x)).bind (fun v => store nb (B y + x) v))
                nx xa d) m y0 d = some d' ∧
        d'.length = d.length ∧
        (∀ y x, y0 ≤ y → y < y0 + m → xa ≤ x → x < xa + nx →
          d'[(B y + x).toNat]? = src[(R y x).toNat]?) ∧
        (∀ i : Nat, (∀ y x, y0 ≤ y → y < y0 + m → xa ≤ x → x < xa + nx → (i : Int) ≠ B y + x) →
          d'[i]? = d[i]?) := by
  intro m
  induction m with
  | zero =>
    intro y0 d _ _ _
    refine ⟨d, rfl, rfl, ?_, fun i _ => rfl⟩
    intro y x h1 h2
    exact absurd h2 (by push_cast; omega)
  | succ m ih =>
    intro y0 d hsrc hdst hdisj
    obtain ⟨d1, hd1, hlen1, hget1⟩ := copy_row_spec src (R y0) (B y0) nx xa d
      (fun x h1 h2 => hsrc y0 x (le_refl _) (by push_cast; omega) h1 h2)
      (fun x h1 h2 => hdst y0 x (le_refl _) (by push_cast; omega) h1 h2)
    obtain ⟨d', hd', hlen, hin, hout⟩ := ih (y0 + 1) d1
      (fun y x h1 h2 h3 h4 => hsrc y x (by omega) (by push_cast; omega) h3 h4)
      (fun y x h1 h2 h3 h4 => by
        have := hdst y x (by omega) (by push_cast; omega) h3 h4
        rw [hlen1]; exact this)
      (fun y y2 x x2 h1 h2 h3 h4 h5 h6 h7 =>
        hdisj y y2 x x2 (by omega) h2 (by push_cast; omega) h4 h5 h6 h7)
    refine ⟨d', ?_, hlen.trans hlen1, ?_, ?_⟩
    · rw [for_loop]
      simp only [hd1, Option.some_bind]
      exact hd'
    · intro y x h1 h2 h3 h4
      by_cases hy : y = y0
      · subst hy
        obtain ⟨hb0, _⟩ := hdst y x (le_refl _) (by push_cast; omega) h3 h4
        have hnat : (((B y + x).toNat : Nat) : Int) = B y + x := Int.toNat_of_nonneg hb0
        rw [hout (B y + x).toNat (fun y2 x2 g1 g2 g3 g4 => by
          rw [hnat]
          exact hdisj y y2 x x2 (le_refl _) (by omega) (by push_cast; omega) h3 h4 g3 g4)]
        rw [hget1, hnat]
        have hc : B y + xa ≤ B y + x ∧ B y + x < B y + xa + (nx : Int) := by omega
        rw [if_pos hc]
        have : B y + x - B y = x := by omega
        rw [this]
      · exact hin y x (by omega) (by push_cast at h2; omega) h3 h4
    · intro i hi
      rw [hout i (fun y x h1 h2 h3 h4 => hi y x (by omega) (by push_cast; omega) h3 h4)]
      rw [hget1]
      have hc : ¬ (B y0 + xa ≤ (i : Int) ∧ (i : Int) < B y0 + xa + (nx : Int)) := by
        intro hc
        exact hi y0 ((i : Int) - B y0) (le_refl _) (by push_cast; omega) (by omega) (by omega)
          (by omega)
      rw [if_neg hc]

/-! ## Lemmas on the dash loop -/

theorem ofNumbers_item {α : Type} (d : List α) (k : Nat) :
    (JSArrayLike.ofNumbers d).item k = d[k]? := by
  simp only [JSArrayLike.ofNumbers, JSArrayLike.ofList, List.get?_eq_getElem?,
    List.getElem?_map]
  cases d[k]? <;> rfl

theorem ofNumbers_length {α : Type} (d : List α) :
    (JSArrayLike.ofNumbers d).length = some d.length := by
  simp [JSArrayLike.ofNumbers, JSArrayLike.ofList]

/-- The dash loop on entries that all decode: it appends the decoded entries
in order and adds the number of zero entries to the counter. -/
theorem dash_loop_spec {α : Type} [Zero α] [DecidableEq α] (item : Nat → Option α)
    (length : Nat) (f : Nat → α) :
    ∀ (n i : Nat) (dashes : List α) (zero_dashes : Nat),
      (∀ j, j < n → item ((i + j) % length) = some (f (i + j))) →
      zero_dashes + n < 2 ^ 32 →
      dash_loop item length n i dashes zero_dashes =
        some (dashes ++ (List.range n).map (fun j => f (i + j)),
          zero_dashes + ((List.range n).map (fun j => f (i + j))).count 0) := by
  intro n
  induction n with
  | zero => intro i dashes z _ _; simp [dash_loop]
  | succ n ih =>
    intro i dashes z hitem hz
    have h0 := hitem 0 (Nat.succ_pos n)
    rw [Nat.add_zero] at h0
    have hrest : ∀ j, j < n → item ((i + 1 + j) % length) = some (f (i + 1 + j)) := by
      intro j hj
      have := hitem (j + 1) (Nat.succ_lt_succ hj)
      rwa [show i + (j + 1) = i + 1 + j by omega] at this
    have hshift : (List.range (n + 1)).map (fun j => f (i + j)) =
        f i :: (List.range n).map (fun j => f (i + 1 + j)) := by
      rw [List.range_succ_eq_map, List.map_cons, List.map_map]
      congr 1
      apply List.map_congr_left
      intro j _
      simp only [Function.comp, Nat.succ_eq_add_one]
      congr 1; omega
    rw [dash_loop, h0, hshift]
    by_cases hv : f i = 0
    · simp only [hv, if_true]
      rw [Nat.mod_eq_of_lt (by omega), ih (i + 1) _ _ hrest (by omega)]
      simp [Nat.add_assoc, Nat.add_comm 1]
    · simp only [hv, if_false]
      rw [ih (i + 1) _ _ hrest (by omega)]
      have : ¬ (f i == 0) = true := by simpa using hv
      simp [List.count_cons, this]

theorem roundNE_intCast (n : ℤ) : roundNE (n : ℚ) = n := by
  simp [roundNE]

theorem roundNE_half_even (f : ℤ) (hf : f % 2 = 0) : roundNE ((f : ℚ) + 1 / 2) = f := by
  have hfl : ⌊(f : ℚ) + 1 / 2⌋ = f := by
    rw [Int.floor_eq_iff]
    constructor <;> norm_num
  have h1 : ¬ ((f : ℚ) + 1 / 2 - (f : ℚ) < 1 / 2) := by norm_num
  have h2 : ¬ ((1 : ℚ) / 2 < (f : ℚ) + 1 / 2 - (f : ℚ)) := by norm_num
  simp only [roundNE, hfl, h1, h2, hf, if_false, if_true]

theorem roundNE_half_odd (f : ℤ) (hf : f % 2 = 1) : roundNE ((f : ℚ) + 1 / 2) = f + 1 := by
  have hfl : ⌊(f : ℚ) + 1 / 2⌋ = f := by
    rw [Int.floor_eq_iff]
    constructor <;> norm_num
  have h1 : ¬ ((f : ℚ) + 1 / 2 - (f : ℚ) < 1 / 2) := by norm_num
  have h2 : ¬ ((1 : ℚ) / 2 < (f : ℚ) + 1 / 2 - (f : ℚ)) := by norm_num
  have h3 : ¬ f % 2 = 0 := by omega
  simp only [roundNE, hfl, h1, h2, h3, if_false]

theorem roundNE_of_lt_half (x : ℚ) (f : ℤ) (h1 : (f : ℚ) ≤ x) (h2 : x < (f : ℚ) + 1 / 2) :
    roundNE x = f := by
  have hfl : ⌊x⌋ = f := by
    rw [Int.floor_eq_iff]
    exact ⟨h1, by linarith⟩
  have h3 : x - (f : ℚ) < 1 / 2 := by linarith
  simp only [roundNE, hfl, h3, if_true]

theorem roundNE_of_gt_half (x : ℚ) (f : ℤ) (h1 : (f : ℚ) + 1 / 2 < x) (h2 : x < (f : ℚ) + 1) :
    roundNE x = f + 1 := by
  have hfl : ⌊x⌋ = f := by
    rw [Int.floor_eq_iff]
    exact ⟨by linarith, h2⟩
  have h3 : ¬ x - (f : ℚ) < 1 / 2 := by linarith
  have h4 : 1 / 2 < x - (f : ℚ) := by linarith
  simp only [roundNE, hfl, h3, h4, if_true, if_false]

theorem roundBinary_zero (p : ℕ) (emin : ℤ) : roundBinary p emin 0 = 0 := by
  simp [roundBinary]

theorem roundBinary_of_log (p : ℕ) (emin : ℤ) (q : ℚ) (k : ℤ) (hq : q ≠ 0)
    (hlo : (2 : ℚ) ^ k ≤ |q|) (hhi : |q| < (2 : ℚ) ^ (k + 1)) :
    roundBinary p emin q =
      roundNE (q / 2 ^ max (k - ((p : ℤ) - 1)) emin) * 2 ^ max (k - ((p : ℤ) - 1)) emin := by
  have hpos : 0 < |q| := abs_pos.mpr hq
  have h1 : k ≤ Int.log 2 |q| :=
    (Int.zpow_le_iff_le_log (by norm_num) hpos).mp (by exact_mod_cast hlo)
  have h2 : Int.log 2 |q| < k + 1 :=
    (Int.lt_zpow_iff_log_lt (by norm_num) hpos).mp (by exact_mod_cast hhi)
  have h3 : Int.log 2 |q| = k := by omega
  simp only [roundBinary, hq, if_false, h3]

/-- A number with at most 53 significant bits at exponent `k` is a `double`. -/
theorem binary64_exact (q : ℚ) (k n : ℤ) (hq : q ≠ 0) (hlo : (2 : ℚ) ^ k ≤ |q|)
    (hhi : |q| < (2 : ℚ) ^ (k + 1)) (hk : -1074 ≤ k - 52) (hn : q / 2 ^ (k - 52) = (n : ℚ)) :
    binary64 q = q := by
  have hmax : max (k - (((53 : ℕ) : ℤ) - 1)) (-1074) = k - 52 := by
    rw [max_eq_left (by push_cast; omega)]; push_cast; ring
  rw [binary64, roundBinary_of_log 53 (-1074) q k hq hlo hhi, hmax, hn, roundNE_intCast, ← hn]
  have : (2 : ℚ) ^ (k - 52) ≠ 0 := zpow_ne_zero _ (by norm_num)
  field_simp

/-- A tie between two neighbouring `double`s goes to the even significand. -/
theorem binary64_tie (q : ℚ) (k f : ℤ) (hq : q ≠ 0) (hlo : (2 : ℚ) ^ k ≤ |q|)
    (hhi : |q| < (2 : ℚ) ^ (k + 1)) (hk : -1074 ≤ k - 52)
    (hn : q / 2 ^ (k - 52) = (f : ℚ) + 1 / 2) (hf : f % 2 = 0) :
    binary64 q = f * 2 ^ (k - 52) := by
  have hmax : max (k - (((53 : ℕ) : ℤ) - 1)) (-1074) = k - 52 := by
    rw [max_eq_left (by push_cast; omega)]; push_cast; ring
  rw [binary64, roundBinary_of_log 53 (-1074) q k hq hlo hhi, hmax, hn, roundNE_half_even f hf]

/-- Rounding to `double` a number of binary exponent `k` in the normal range. -/
theorem binary64_eval (q : ℚ) (k n : ℤ) (hq : q ≠ 0) (hlo : (2 : ℚ) ^ k ≤ |q|)
    (hhi : |q| < (2 : ℚ) ^ (k + 1)) (hk : -1074 ≤ k - 52)
    (hn : roundNE (q / 2 ^ (k - 52)) = n) : binary64 q = n * 2 ^ (k - 52) := by
  have hmax : max (k - (((53 : ℕ) : ℤ) - 1)) (-1074) = k - 52 := by
    rw [max_eq_left (by push_cast; omega)]; push_cast; ring
  rw [binary64, roundBinary_of_log 53 (-1074) q k hq hlo hhi, hmax, hn]

/-- Rounding to `float` a number of binary exponent `k` in the normal range. -/
theorem binary32_eval (q : ℚ) (k n : ℤ) (hq : q ≠ 0) (hlo : (2 : ℚ) ^ k ≤ |q|)
    (hhi : |q| < (2 : ℚ) ^ (k + 1)) (hk : -149 ≤ k - 23)
    (hn : roundNE (q / 2 ^ (k - 23)) = n) : binary32 q = n * 2 ^ (k - 23) := by
  have hmax : max (k - (((24 : ℕ) : ℤ) - 1)) (-149) = k - 23 := by
    rw [max_eq_left (by push_cast; omega)]; push_cast; ring
  rw [binary32, roundBinary_of_log 24 (-149) q k hq hlo hhi, hmax, hn]

theorem twoPi_ieee (sqrt sqrtf acos tan : ℚ → ℚ) :
    twoPi (FloatEnv.ieee sqrt sqrtf acos tan) = 884279719003555 / 2 ^ 47 := by
  have h : binary64 (M_PI_binary64 * 2) = M_PI_binary64 * 2 := by
    apply binary64_exact _ 2 7074237752028440
    · norm_num [M_PI_binary64]
    · rw [abs_of_pos (by norm_num [M_PI_binary64])]; norm_num [M_PI_binary64]
    · rw [abs_of_pos (by norm_num [M_PI_binary64])]; norm_num [M_PI_binary64]
    · norm_num
    · norm_num [M_PI_binary64]
  show binary64 (M_PI_binary64 * 2) = _
  rw [h]; norm_num [M_PI_binary64]

theorem twoPi_ieee_pos (sqrt sqrtf acos tan : ℚ → ℚ) :
    0 < twoPi (FloatEnv.ieee sqrt sqrtf acos tan) := by
  rw [twoPi_ieee]; norm_num

theorem binary64_twoPi (sqrt sqrtf acos tan : ℚ → ℚ) :
    binary64 (twoPi (FloatEnv.ieee sqrt sqrtf acos tan))
      = twoPi (FloatEnv.ieee sqrt sqrtf acos tan) := by
  rw [twoPi_ieee]
  exact binary64_exact _ 2 7074237752028440 (by norm_num)
    (by rw [abs_of_pos (by norm_num)]; norm_num)
    (by rw [abs_of_pos (by norm_num)]; norm_num) (by norm_num) (by norm_num)

/-! ## The IEEE roundings are odd and monotone -/

theorem roundNE_bounds (x : ℚ) : ⌊x⌋ ≤ roundNE x ∧ roundNE x ≤ ⌊x⌋ + 1 := by
  unfold roundNE
  simp only
  split_ifs <;> constructor <;> omega

theorem roundNE_mono {x y : ℚ} (h : x ≤ y) : roundNE x ≤ roundNE y := by
  have hfl : ⌊x⌋ ≤ ⌊y⌋ := Int.floor_mono h
  rcases lt_or_eq_of_le hfl with hlt | heq
  · have := (roundNE_bounds x).2
    have := (roundNE_bounds y).1
    omega
  · unfold roundNE
    simp only [heq]
    have hxy : x - (⌊y⌋ : ℚ) ≤ y - (⌊y⌋ : ℚ) := by linarith
    split_ifs <;> first | omega | (exfalso; linarith)

theorem roundNE_neg (x : ℚ) : roundNE (-x) = -roundNE x := by
  by_cases hx : (⌊x⌋ : ℚ) = x
  · rw [← hx, ← Int.cast_neg, roundNE_intCast, roundNE_intCast]
  · have h1 : (⌊x⌋ : ℚ) < x := lt_of_le_of_ne (Int.floor_le x) hx
    have h2 : x < ⌊x⌋ + 1 := Int.lt_floor_add_one x
    have hfl : ⌊-x⌋ = -⌊x⌋ - 1 := by
      rw [Int.floor_eq_iff]
      push_cast
      constructor <;> linarith
    unfold roundNE
    simp only [hfl]
    push_cast
    split_ifs <;> first | omega | (exfalso; linarith)

theorem roundBinary_neg (p : ℕ) (emin : ℤ) (q : ℚ) :
    roundBinary p emin (-q) = -roundBinary p emin q := by
  by_cases hq : q = 0
  · simp [roundBinary, hq]
  · have hq' : -q ≠ 0 := neg_ne_zero.mpr hq
    simp only [roundBinary, hq, hq', if_false, abs_neg, neg_div, roundNE_neg]
    push_cast
    ring

theorem roundBinary_nonneg (p : ℕ) (emin : ℤ) {q : ℚ} (hq : 0 ≤ q) :
    0 ≤ roundBinary p emin q := by
  by_cases h0 : q = 0
  · simp [roundBinary, h0]
  · simp only [roundBinary, h0, if_false]
    have hg : (0 : ℚ) < 2 ^ max (Int.log 2 |q| - ((p : ℤ) - 1)) emin := zpow_pos (by norm_num) _
    have h1 : (0 : ℚ) ≤ q / 2 ^ max (Int.log 2 |q| - ((p : ℤ) - 1)) emin := div_nonneg hq hg.le
    have h2 : 0 ≤ roundNE (q / 2 ^ max (Int.log 2 |q| - ((p : ℤ) - 1)) emin) := by
      have := roundNE_mono h1
      rwa [show ((0 : ℚ)) = ((0 : ℤ) : ℚ) by norm_num, roundNE_intCast] at this
    exact mul_nonneg (by exact_mod_cast h2) hg.le

theorem two_zpow_toNat (n : ℤ) (hn : 0 ≤ n) : (((2 : ℤ) ^ n.toNat : ℤ) : ℚ) = (2 : ℚ) ^ n := by
  push_cast
  rw [← zpow_natCast, Int.toNat_of_nonneg hn]

theorem roundBinary_mono_pos (p : ℕ) (hp : 1 ≤ p) (emin : ℤ) {a b : ℚ} (ha : 0 < a)
    (hab : a ≤ b) : roundBinary p emin a ≤ roundBinary p emin b := by
  have hb : 0 < b := lt_of_lt_of_le ha hab
  have hlog : Int.log 2 a ≤ Int.log 2 b := Int.log_mono_right ha hab
  simp only [roundBinary, ne_of_gt ha, ne_of_gt hb, if_false, abs_of_pos ha, abs_of_pos hb]
  generalize hka : Int.log 2 a = ka at hlog
  generalize hkb : Int.log 2 b = kb at hlog
  have ha_hi : a < (2 : ℚ) ^ (ka + 1) := by
    have := Int.lt_zpow_succ_log_self (b := 2) (by norm_num) a
    rw [hka] at this; exact_mod_cast this
  have hb_lo : (2 : ℚ) ^ kb ≤ b := by
    have := Int.zpow_log_le_self (b := 2) (r := b) (by norm_num) hb
    rw [hkb] at this; exact_mod_cast this
  rcases lt_or_eq_of_le (max_le_max (sub_le_sub_right hlog ((p : ℤ) - 1)) (le_refl emin))
    with hlt | heq
  · -- different exponents: `2 ^ kb` separates the two results
    have hpz : (1 : ℤ) ≤ (p : ℤ) := by exact_mod_cast hp
    have hkab : ka < kb := by
      rcases lt_or_eq_of_le hlog with h | h
      · exact h
      · rw [h] at hlt; exact absurd hlt (lt_irrefl _)
    have heb : max (kb - ((p : ℤ) - 1)) emin = kb - ((p : ℤ) - 1) := by
      apply max_eq_left
      by_contra hcon
      rw [max_eq_right (le_of_lt (not_le.mp hcon))] at hlt
      exact absurd (le_max_right _ _) (not_le.mpr hlt)
    generalize hea : max (ka - ((p : ℤ) - 1)) emin = ea at hlt
    rw [heb] at hlt ⊢
    have hga : (0 : ℚ) < 2 ^ ea := zpow_pos (by norm_num) _
    have hgb : (0 : ℚ) < 2 ^ (kb - ((p : ℤ) - 1)) := zpow_pos (by norm_num) _
    -- left side is at most `2 ^ kb`
    have hN : a / 2 ^ ea ≤ (((2 : ℤ) ^ (kb - ea).toNat : ℤ) : ℚ) := by
      rw [two_zpow_toNat _ (by omega), div_le_iff₀ hga, ← zpow_add₀ (by norm_num)]
      have : (2 : ℚ) ^ (ka + 1) ≤ 2 ^ (kb - ea + ea) :=
        zpow_le_zpow_right₀ (by norm_num) (by omega)
      linarith
    have hl : (roundNE (a / 2 ^ ea) : ℚ) * 2 ^ ea ≤ 2 ^ kb := by
      have h1 := roundNE_mono hN
      rw [roundNE_intCast] at h1
      have h2 : (roundNE (a / 2 ^ ea) : ℚ) ≤ (((2 : ℤ) ^ (kb - ea).toNat : ℤ) : ℚ) := by
        exact_mod_cast h1
      rw [two_zpow_toNat _ (by omega)] at h2
      calc (roundNE (a / 2 ^ ea) : ℚ) * 2 ^ ea ≤ 2 ^ (kb - ea) * 2 ^ ea :=
            mul_le_mul_of_nonneg_right h2 hga.le
        _ = 2 ^ kb := by rw [← zpow_add₀ (by norm_num)]; congr 1; ring
    -- right side is at least `2 ^ kb`
    have hM : (((2 : ℤ) ^ ((p : ℤ) - 1).toNat : ℤ) : ℚ) ≤ b / 2 ^ (kb - ((p : ℤ) - 1)) := by
      rw [two_zpow_toNat _ (by omega), le_div_iff₀ hgb, ← zpow_add₀ (by norm_num)]
      have : ((p : ℤ) - 1) + (kb - ((p : ℤ) - 1)) = kb := by ring
      rw [this]; exact hb_lo
    have hr : (2 : ℚ) ^ kb ≤ (roundNE (b / 2 ^ (kb - ((p : ℤ) - 1))) : ℚ)
        * 2 ^ (kb - ((p : ℤ) - 1)) := by
      have h1 := roundNE_mono hM
      rw [roundNE_intCast] at h1
      have h2 : (((2 : ℤ) ^ ((p : ℤ) - 1).toNat : ℤ) : ℚ)
          ≤ (roundNE (b / 2 ^ (kb - ((p : ℤ) - 1))) : ℚ) := by exact_mod_cast h1
      rw [two_zpow_toNat _ (by omega)] at h2
      calc (2 : ℚ) ^ kb = 2 ^ ((p : ℤ) - 1) * 2 ^ (kb - ((p : ℤ) - 1)) := by
            rw [← zpow_add₀ (by norm_num)]; congr 1; ring
        _ ≤ _ := mul_le_mul_of_nonneg_right h2 hgb.le
    exact le_trans hl hr
  · rw [heq]
    have hg : (0 : ℚ) < 2 ^ max (kb - ((p : ℤ) - 1)) emin := zpow_pos (by norm_num) _
    have h1 : a / 2 ^ max (kb - ((p : ℤ) - 1)) emin ≤ b / 2 ^ max (kb - ((p : ℤ) - 1)) emin :=
      div_le_div_of_nonneg_right hab hg.le
    have h2 := roundNE_mono h1
    exact mul_le_mul_of_nonneg_right (by exact_mod_cast h2) hg.le

/-- Rounding to a binary format is monotone. -/
theorem roundBinary_monotone (p : ℕ) (hp : 1 ≤ p) (emin : ℤ) : Monotone (roundBinary p emin) := by
  intro a b hab
  rcases lt_trichotomy a 0 with ha | ha | ha
  · rcases lt_or_le b 0 with hb | hb
    · have h := roundBinary_mono_pos p hp emin (neg_pos.mpr hb) (neg_le_neg hab)
      rw [roundBinary_neg, roundBinary_neg] at h
      linarith
    · have h1 := roundBinary_nonneg p emin (neg_pos.mpr ha).le
      rw [roundBinary_neg] at h1
      have h2 := roundBinary_nonneg p emin hb
      linarith
  · rw [ha]
    have : roundBinary p emin 0 = 0 := by simp [roundBinary]
    rw [this]
    exact roundBinary_nonneg p emin (ha ▸ hab)
  · exact roundBinary_mono_pos p hp emin ha hab

theorem binary64_monotone : Monotone binary64 :=
  roundBinary_monotone 53 (by norm_num) (-1074)

/-! ## Lemmas on `fmod` and the angle functions -/

theorem fmod_zero_left {α : Type} [LinearOrderedField α] [FloorRing α]
    (y : α) : fmod 0 y = 0 := by
  simp [fmod]

theorem fmod_self {α : Type} [LinearOrderedField α] [FloorRing α]
    {y : α} (hy : 0 < y) : fmod y y = 0 := by
  simp [fmod, div_self (ne_of_gt hy)]

theorem fmod_abs_lt {α : Type} [LinearOrderedField α] [FloorRing α]
    (x : α) {y : α} (hy : 0 < y) : -y < fmod x y ∧ fmod x y < y := by
  have hyne : y ≠ 0 := ne_of_gt hy
  have hx : x = x / y * y := by field_simp
  by_cases hq : 0 ≤ x / y
  · have h1 := Int.floor_le (x / y)
    have h2 := Int.lt_floor_add_one (x / y)
    have e : fmod x y = (x / y - ⌊x / y⌋) * y := by
      simp only [fmod, hq, if_true]; rw [sub_mul, ← hx]
    rw [e]
    constructor
    · have : 0 ≤ (x / y - ⌊x / y⌋) * y := mul_nonneg (by linarith) hy.le
      linarith
    · have : (x / y - ⌊x / y⌋) * y < 1 * y := mul_lt_mul_of_pos_right (by linarith) hy
      linarith
  · have h1 := Int.le_ceil (x / y)
    have h2 := Int.ceil_lt_add_one (x / y)
    have e : fmod x y = (x / y - ⌈x / y⌉) * y := by
      simp only [fmod, hq, if_false]; rw [sub_mul, ← hx]
    rw [e]
    constructor
    · have : (-1) * y < (x / y - ⌈x / y⌉) * y := mul_lt_mul_of_pos_right (by linarith) hy
      linarith
    · have : (⌈x / y⌉ - x / y) * y ≥ 0 := mul_nonneg (by linarith) hy.le
      nlinarith

theorem fmod_eq_self {α : Type} [LinearOrderedField α] [FloorRing α]
    {x y : α} (h0 : 0 ≤ x) (h1 : x < y) : fmod x y = x := by
  have hy : 0 < y := lt_of_le_of_lt h0 h1
  have hq : 0 ≤ x / y := div_nonneg h0 hy.le
  have hfl : ⌊x / y⌋ = 0 := by
    rw [Int.floor_eq_iff]
    refine ⟨by simpa using hq, ?_⟩
    rw [div_lt_iff₀ hy]; simpa using h1
  simp [fmod, hq, hfl]

/-- The start angle returned by `canonicalizeAngle` lies in `[0, twoPi)` for
every rounding that is monotone and leaves `0` and `twoPi` as they are. -/
theorem canonicalizeAngle_start_range {α : Type} [LinearOrderedField α] [FloorRing α]
    (E : FloatEnv α) (s e : α) (hpos : 0 < twoPi E)
    (h0 : E.rd 0 = 0) (hT : E.rd (twoPi E) = twoPi E) (hmono : Monotone E.rd) :
    0 ≤ (canonicalizeAngle E s e).1 ∧ (canonicalizeAngle E s e).1 < twoPi E := by
  obtain ⟨hlo, hhi⟩ := fmod_abs_lt s hpos
  simp only [canonicalizeAngle]
  by_cases hf : fmod s (twoPi E) < 0
  · have hn0 : 0 ≤ E.rd (fmod s (twoPi E) + twoPi E) := by
      have := hmono (show (0 : α) ≤ fmod s (twoPi E) + twoPi E by linarith)
      rwa [h0] at this
    have hnT : E.rd (fmod s (twoPi E) + twoPi E) ≤ twoPi E := by
      have := hmono (show fmod s (twoPi E) + twoPi E ≤ twoPi E by linarith)
      rwa [hT] at this
    rw [if_pos hf]
    by_cases hge : E.rd (fmod s (twoPi E) + twoPi E) ≥ twoPi E
    · have heq : E.rd (fmod s (twoPi E) + twoPi E) = twoPi E := le_antisymm hnT hge
      rw [if_pos hge, heq, sub_self, h0]
      exact ⟨le_refl _, hpos⟩
    · rw [if_neg hge]
      exact ⟨hn0, not_le.mp hge⟩
  · rw [if_neg hf]
    exact ⟨not_lt.mp hf, hhi⟩

theorem canonicalizeAngle_snd {α : Type} [LinearOrderedField α] [FloorRing α]
    (E : FloatEnv α) (s e : α) :
    (canonicalizeAngle E s e).2 = E.rd (e + E.rd ((canonicalizeAngle E s e).1 - s)) := rfl

theorem canonicalizeAngle_of_range {α : Type} [LinearOrderedField α] [FloorRing α]
    (E : FloatEnv α) (s e : α) (h0 : E.rd 0 = 0)
    (hs0 : 0 ≤ s) (hs1 : s < twoPi E) :
    canonicalizeAngle E s e = (s, E.rd e) := by
  simp only [canonicalizeAngle, fmod_eq_self hs0 hs1, if_neg (not_lt.mpr hs0), sub_self, h0,
    add_zero]

theorem js_canvas_arc_clockwise {α : Type} [LinearOrderedField α] [FloorRing α]
    (E : FloatEnv α) (cr : Cairo α) (x y r s e : α) (hr : 0 ≤ r) :
    js_canvas_arc E (some cr) (some x) (some y) (some r) (some s) (some e) false
      = (.JS_UNDEFINED, [.arc x y r (canonicalizeAngle E s e).1
          (adjustEndAngle E (canonicalizeAngle E s e).1 (canonicalizeAngle E s e).2 false)]) := by
  simp [js_canvas_arc, not_lt.mpr hr]

/-! ## Claims on `arc` -/

/-- C1 (amended): for a monotone rounding that leaves `0` and `twoPi` as they
are, `arc` with `counterclockwise = false` issues `cairo_arc` with a start
angle `s'` in `[0, twoPi)`.  When `endAngle - startAngle = twoPi`, the end
angle is `s' + twoPi` exactly if no operation rounds, and it is the `double`
sum `s' + twoPi` (with `s' = startAngle`) if `0 ≤ startAngle < twoPi`. -/
theorem arc_full_turn {α : Type} [LinearOrderedField α] [FloorRing α]
    (E : FloatEnv α) (cr : Cairo α) (x y r s e : α) (hr : 0 ≤ r)
    (hpos : 0 < twoPi E) (h0 : E.rd 0 = 0) (hT : E.rd (twoPi E) = twoPi E)
    (hmono : Monotone E.rd) :
    ∃ s' e', js_canvas_arc E (some cr) (some x) (some y) (some r) (some s) (some e) false
        = (.JS_UNDEFINED, [.arc x y r s' e']) ∧
      0 ≤ s' ∧ s' < twoPi E ∧
      ((∀ v, E.rd v = v) → e - s = twoPi E → e' = s' + twoPi E) ∧
      (0 ≤ s → s < twoPi E → E.rd e = e → E.rd (e - s) = twoPi E →
        s' = s ∧ e' = E.rd (s + twoPi E)) := by
  obtain ⟨hlo, hhi⟩ := canonicalizeAngle_start_range E s e hpos h0 hT hmono
  refine ⟨_, _, js_canvas_arc_clockwise E cr x y r s e hr, hlo, hhi, ?_, ?_⟩
  · intro hid hes
    rw [canonicalizeAngle_snd]
    have hsweep : e + ((canonicalizeAngle E s e).1 - s) - (canonicalizeAngle E s e).1
        = twoPi E := by
      rw [← hes]; ring
    simp only [adjustEndAngle, hid, hsweep]
    simp
  · intro hs0 hs1 he hes
    rw [canonicalizeAngle_of_range E s e h0 hs0 hs1, he]
    refine ⟨rfl, ?_⟩
    simp only [adjustEndAngle, hes]
    simp

/-- Witness of C1: in IEEE `double` arithmetic, from angle `1` to angle
`1 + twoPi`, the arc runs from `1` to the `double` sum `1 + twoPi`; in exact
arithmetic with `M_PI = 22/7`, from angle `-1` to angle `-1 + 44/7`, it runs
from `s'` to `s' + 44/7`. -/
theorem arc_full_turn_witness :
    (∃ s' e', js_canvas_arc (FloatEnv.ieee id id id id) (some ⟨(0, 0), 0⟩) (some 0)
        (some 0) (some 1) (some 1) (some (1 + 884279719003555 / 2 ^ 47)) false
        = (.JS_UNDEFINED, [.arc 0 0 1 s' e']) ∧
      0 ≤ s' ∧ s' < twoPi (FloatEnv.ieee id id id id) ∧
      s' = 1 ∧ e' = binary64 (1 + twoPi (FloatEnv.ieee id id id id))) ∧
    (∃ s' e', js_canvas_arc (FloatEnv.exact (22 / 7 : ℚ) id id id) (some ⟨(0, 0), 0⟩) (some 0)
        (some 0) (some 1) (some (-1)) (some (-1 + 44 / 7)) false
        = (.JS_UNDEFINED, [.arc 0 0 1 s' e']) ∧
      0 ≤ s' ∧ s' < twoPi (FloatEnv.exact (22 / 7 : ℚ) id id id) ∧
      e' = s' + twoPi (FloatEnv.exact (22 / 7 : ℚ) id id id)) := by
  constructor
  · obtain ⟨s', e', hcall, h0, h1, _, hrange⟩ :=
      arc_full_turn (FloatEnv.ieee id id id id) ⟨(0, 0), 0⟩ 0 0 1 1
        (1 + 884279719003555 / 2 ^ 47) (by norm_num) (twoPi_ieee_pos id id id id)
        (roundBinary_zero 53 (-1074)) (binary64_twoPi id id id id) binary64_monotone
    obtain ⟨hs, he⟩ := hrange (by norm_num) (by rw [twoPi_ieee]; norm_num)
      (binary64_exact _ 2 8200137658871064 (by norm_num)
        (by rw [abs_of_pos (by norm_num)]; norm_num)
        (by rw [abs_of_pos (by norm_num)]; norm_num) (by norm_num) (by norm_num))
      (by
        show binary64 _ = _
        rw [binary64_exact _ 2 7074237752028440 (by norm_num)
          (by rw [abs_of_pos (by norm_num)]; norm_num)
          (by rw [abs_of_pos (by norm_num)]; norm_num) (by norm_num) (by norm_num), twoPi_ieee]
        norm_num)
    exact ⟨s', e', hcall, h0, h1, hs, he⟩
  · obtain ⟨s', e', hcall, h0, h1, hexact, _⟩ :=
      arc_full_turn (FloatEnv.exact (22 / 7 : ℚ) id id id) ⟨(0, 0), 0⟩ 0 0 1 (-1)
        (-1 + 44 / 7) (by norm_num) (by norm_num [twoPi, FloatEnv.exact]) rfl rfl monotone_id
    exact ⟨s', e', hcall, h0, h1, hexact (fun _ => rfl) (by norm_num [twoPi, FloatEnv.exact])⟩

/-- C1 as stated fails in `double` arithmetic: for the `double`s
`startAngle = -4650052643125795 / 2^46` (about `-66.08`) and
`endAngle = startAngle + twoPi`, `arc` issues `cairo_arc` from
`s' = 426971622787515 / 2^47` to `1311251341791069 / 2^47`, which is neither
`s' + twoPi` nor that sum rounded to `double`. -/
theorem arc_full_turn_counterexample :
    twoPi (FloatEnv.ieee id id id id) = 884279719003555 / 2 ^ 47 ∧
    binary64 (-4650052643125795 / 2 ^ 46) = -4650052643125795 / 2 ^ 46 ∧
    binary64 (-8415825567248035 / 2 ^ 47) = -8415825567248035 / 2 ^ 47 ∧
    (-8415825567248035 / 2 ^ 47 : ℚ) - -4650052643125795 / 2 ^ 46 = 884279719003555 / 2 ^ 47 ∧
    js_canvas_arc (FloatEnv.ieee id id id id) (some ⟨(0, 0), 0⟩) (some 0) (some 0) (some 1)
        (some (-4650052643125795 / 2 ^ 46)) (some (-8415825567248035 / 2 ^ 47)) false
      = (.JS_UNDEFINED,
          [.arc 0 0 1 (426971622787515 / 2 ^ 47) (1311251341791069 / 2 ^ 47)]) ∧
    (1311251341791069 / 2 ^ 47 : ℚ) ≠ 426971622787515 / 2 ^ 47 + 884279719003555 / 2 ^ 47 ∧
    (1311251341791069 / 2 ^ 47 : ℚ)
      ≠ binary64 (426971622787515 / 2 ^ 47 + 884279719003555 / 2 ^ 47) := by
  have hfmod : fmod (-4650052643125795 / 2 ^ 46 : ℚ) (884279719003555 / 2 ^ 47)
      = -57163512027005 / 2 ^ 44 := by
    have hq : ¬ (0 : ℚ) ≤ -4650052643125795 / 2 ^ 46 / (884279719003555 / 2 ^ 47) := by norm_num
    have hc : ⌈(-4650052643125795 / 2 ^ 46 / (884279719003555 / 2 ^ 47) : ℚ)⌉ = -10 := by
      rw [Int.ceil_eq_iff]; constructor <;> norm_num
    simp only [fmod, hq, if_false, hc]
    norm_num
  have h1 : binary64 (-57163512027005 / 2 ^ 44 + 884279719003555 / 2 ^ 47)
      = 426971622787515 / 2 ^ 47 := by
    rw [binary64_exact _ 1 6831545964600240 (by norm_num)
      (by rw [abs_of_pos (by norm_num)]; norm_num)
      (by rw [abs_of_pos (by norm_num)]; norm_num) (by norm_num) (by norm_num)]
    norm_num
  have h2 : binary64 (426971622787515 / 2 ^ 47 - -4650052643125795 / 2 ^ 46)
      = 18998197087967 / 2 ^ 38 := by
    rw [binary64_tie _ 6 4863538454519552 (by norm_num)
      (by rw [abs_of_pos (by norm_num)]; norm_num)
      (by rw [abs_of_pos (by norm_num)]; norm_num) (by norm_num) (by norm_num) (by norm_num)]
    norm_num
  have h3 : binary64 (-8415825567248035 / 2 ^ 47 + 18998197087967 / 2 ^ 38)
      = 1311251341791069 / 2 ^ 47 := by
    rw [binary64_exact _ 3 5245005367164276 (by norm_num)
      (by rw [abs_of_pos (by norm_num)]; norm_num)
      (by rw [abs_of_pos (by norm_num)]; norm_num) (by norm_num) (by norm_num)]
    norm_num
  have h4 : binary64 (1311251341791069 / 2 ^ 47 - 426971622787515 / 2 ^ 47)
      = 442139859501777 / 2 ^ 46 := by
    rw [binary64_exact _ 2 7074237752028432 (by norm_num)
      (by rw [abs_of_pos (by norm_num)]; norm_num)
      (by rw [abs_of_pos (by norm_num)]; norm_num) (by norm_num) (by norm_num)]
    norm_num
  have h5 : binary64 (426971622787515 / 2 ^ 47 + 884279719003555 / 2 ^ 47)
      = 655625670895535 / 2 ^ 46 := by
    rw [binary64_exact _ 3 5245005367164280 (by norm_num)
      (by rw [abs_of_pos (by norm_num)]; norm_num)
      (by rw [abs_of_pos (by norm_num)]; norm_num) (by norm_num) (by norm_num)]
    norm_num
  have hcanon : canonicalizeAngle (FloatEnv.ieee id id id id) (-4650052643125795 / 2 ^ 46)
      (-8415825567248035 / 2 ^ 47) = (426971622787515 / 2 ^ 47, 1311251341791069 / 2 ^ 47) := by
    simp only [canonicalizeAngle, twoPi_ieee, hfmod]
    rw [if_pos (by norm_num)]
    simp only [FloatEnv.ieee, h1]
    rw [if_neg (by norm_num)]
    simp only [h2, h3]
  have hadj : adjustEndAngle (FloatEnv.ieee id id id id) (426971622787515 / 2 ^ 47)
      (1311251341791069 / 2 ^ 47) false = 1311251341791069 / 2 ^ 47 := by
    simp only [adjustEndAngle, twoPi_ieee]
    simp only [FloatEnv.ieee, h4]
    norm_num
  refine ⟨twoPi_ieee id id id id, ?_, ?_, by norm_num, ?_, by norm_num, ?_⟩
  · exact binary64_exact _ 6 (-4650052643125795) (by norm_num)
      (by rw [abs_of_neg (by norm_num)]; norm_num)
      (by rw [abs_of_neg (by norm_num)]; norm_num) (by norm_num) (by norm_num)
  · exact binary64_exact _ 5 (-8415825567248035) (by norm_num)
      (by rw [abs_of_neg (by norm_num)]; norm_num)
      (by rw [abs_of_neg (by norm_num)]; norm_num) (by norm_num) (by norm_num)
  · rw [js_canvas_arc_clockwise _ _ _ _ _ _ _ (by norm_num), hcanon]
    simp only [hadj]
  · rw [h5]; norm_num

/-- C2: an `arc` call on a context whose five numbers decode fails with a
RangeError and issues no cairo call when the radius is negative, and returns
`JS_UNDEFINED` (no RangeError) when the radius is not negative. -/
theorem arc_radius_check {α : Type} [LinearOrderedField α] [FloorRing α]
    (E : FloatEnv α) (cr : Cairo α) (x y radius startAngle endAngle : α)
    (counterclockwise : Bool) :
    (radius < 0 →
      js_canvas_arc E (some cr) (some x) (some y) (some radius) (some startAngle)
        (some endAngle) counterclockwise = (.JS_EXCEPTION .RangeError, [])) ∧
    (0 ≤ radius →
      (js_canvas_arc E (some cr) (some x) (some y) (some radius) (some startAngle)
        (some endAngle) counterclockwise).1 = .JS_UNDEFINED) := by
  constructor
  · intro h
    simp [js_canvas_arc, h]
  · intro h
    simp only [js_canvas_arc, not_lt.mpr h, if_false]
    cases counterclockwise <;> simp

/-- Witness of C2: radius `-1` in exact arithmetic. -/
theorem arc_radius_check_witness :
    ((-1 : ℚ) < 0 →
      js_canvas_arc (FloatEnv.exact (22 / 7 : ℚ) id id id) (some ⟨(0, 0), 0⟩) (some 0) (some 0)
        (some (-1)) (some 0) (some 1) false = (.JS_EXCEPTION .RangeError, [])) ∧
    ((0 : ℚ) ≤ -1 →
      (js_canvas_arc (FloatEnv.exact (22 / 7 : ℚ) id id id) (some ⟨(0, 0), 0⟩) (some 0) (some 0)
        (some (-1)) (some 0) (some 1) false).1 = .JS_UNDEFINED) :=
  arc_radius_check (FloatEnv.exact (22 / 7 : ℚ) id id id) ⟨(0, 0), 0⟩ 0 0 (-1) 0 1 false

/-- C3: with a rounding that leaves `0`, `twoPi` and `-twoPi` as they are, for
every centre and every radius `≥ 0`, `arc(x, y, r, 0, 0, false)` issues
`cairo_arc` from angle 0 to angle 0, and `arc(x, y, r, 0, twoPi, true)` issues
`cairo_arc_negative` from angle 0 to angle `-twoPi`. -/
theorem arc_zero_and_full_circle {α : Type} [LinearOrderedField α] [FloorRing α]
    (E : FloatEnv α) (cr : Cairo α) (x y r : α) (hr : 0 ≤ r)
    (hpos : 0 < twoPi E) (h0 : E.rd 0 = 0) (hT : E.rd (twoPi E) = twoPi E)
    (hnT : E.rd (-twoPi E) = -twoPi E) :
    js_canvas_arc E (some cr) (some x) (some y) (some r) (some 0) (some 0) false
      = (.JS_UNDEFINED, [.arc x y r 0 0]) ∧
    js_canvas_arc E (some cr) (some x) (some y) (some r) (some 0) (some (twoPi E)) true
      = (.JS_UNDEFINED, [.arc_negative x y r 0 (-twoPi E)]) := by
  have hr' : ¬ r < 0 := not_lt.mpr hr
  have hT' : ¬ twoPi E ≤ 0 := not_le.mpr hpos
  have hnT' : ¬ twoPi E ≤ -twoPi E := by
    intro h; linarith
  constructor
  · simp [js_canvas_arc, canonicalizeAngle, adjustEndAngle, fmod_zero_left, hr', h0, hT']
  · simp [js_canvas_arc, canonicalizeAngle, adjustEndAngle, fmod_zero_left, fmod_self hpos, hr',
      h0, hT, hnT, hT', hnT', hpos]

/-- Witness of C3: IEEE `double` arithmetic, centre `(3, 4)`, radius `5`. -/
theorem arc_zero_and_full_circle_witness :
    js_canvas_arc (FloatEnv.ieee id id id id) (some ⟨(0, 0), 0⟩) (some 3) (some 4) (some 5)
        (some 0) (some 0) false = (.JS_UNDEFINED, [.arc 3 4 5 0 0]) ∧
    js_canvas_arc (FloatEnv.ieee id id id id) (some ⟨(0, 0), 0⟩) (some 3) (some 4) (some 5)
        (some 0) (some (twoPi (FloatEnv.ieee id id id id))) true
      = (.JS_UNDEFINED, [.arc_negative 3 4 5 0 (-twoPi (FloatEnv.ieee id id id id))]) :=
  arc_zero_and_full_circle (FloatEnv.ieee id id id id) ⟨(0, 0), 0⟩ 3 4 5 (by norm_num)
    (twoPi_ieee_pos id id id id) (roundBinary_zero 53 (-1074)) (binary64_twoPi id id id id)
    (by
      show binary64 (-twoPi (FloatEnv.ieee id id id id)) = _
      rw [binary64, roundBinary_neg, ← binary64, binary64_twoPi])

/-! ## Claim on `quadraticCurveTo` -/

/-- C4: `quadraticCurveTo` issues exactly one `cairo_curve_to`, with control
points `cp1 = s + 2/3 * (ctrl - s)` and `cp2 = end + 2/3 * (ctrl - end)` (each
operation rounded to `double`) and end point `(x2, y2)`, where `s` is the
current point, except `s = ctrl` when the current point is `(0, 0)`; without
rounding these are the exact values of the two formulas.  For current point
`(10, 10)`, control `(20, 0)` and end `(30, 10)` the controls are within
`1e-3` of `(16.667, 3.333)` and `(23.333, 3.333)`, in exact and in IEEE
arithmetic. -/
theorem quadratic_curve_to_spec {α : Type} [LinearOrderedField α] (E : FloatEnv α)
    (cr : Cairo α) (x1 y1 x2 y2 : α) :
    (∃ s : α × α, (s = if cr.point = (0, 0) then (x1, y1) else cr.point) ∧
      js_canvas_quadratic_curve_to E (some cr) (some x1) (some y1) (some x2) (some y2)
        = (.JS_UNDEFINED, [.curve_to
            (E.rd (s.1 + E.rd (E.rd (2 / 3) * E.rd (x1 - s.1))))
            (E.rd (s.2 + E.rd (E.rd (2 / 3) * E.rd (y1 - s.2))))
            (E.rd (x2 + E.rd (E.rd (2 / 3) * E.rd (x1 - x2))))
            (E.rd (y2 + E.rd (E.rd (2 / 3) * E.rd (y1 - y2)))) x2 y2]) ∧
      ((∀ v, E.rd v = v) →
        js_canvas_quadratic_curve_to E (some cr) (some x1) (some y1) (some x2) (some y2)
          = (.JS_UNDEFINED, [.curve_to (s.1 + 2 / 3 * (x1 - s.1)) (s.2 + 2 / 3 * (y1 - s.2))
              (x2 + 2 / 3 * (x1 - x2)) (y2 + 2 / 3 * (y1 - y2)) x2 y2]))) ∧
    (∃ a b c d : ℚ,
      js_canvas_quadratic_curve_to (FloatEnv.exact (22 / 7 : ℚ) id id id) (some ⟨(10, 10), 0⟩)
        (some 20) (some 0) (some 30) (some 10) = (.JS_UNDEFINED, [.curve_to a b c d 30 10]) ∧
      |a - 16667 / 1000| ≤ 1 / 1000 ∧ |b - 3333 / 1000| ≤ 1 / 1000 ∧
      |c - 23333 / 1000| ≤ 1 / 1000 ∧ |d - 3333 / 1000| ≤ 1 / 1000) ∧
    (∃ a b c d : ℚ,
      js_canvas_quadratic_curve_to (FloatEnv.ieee id id id id) (some ⟨(10, 10), 0⟩)
        (some 20) (some 0) (some 30) (some 10) = (.JS_UNDEFINED, [.curve_to a b c d 30 10]) ∧
      |a - 16667 / 1000| ≤ 1 / 1000 ∧ |b - 3333 / 1000| ≤ 1 / 1000 ∧
      |c - 23333 / 1000| ≤ 1 / 1000 ∧ |d - 3333 / 1000| ≤ 1 / 1000) := by
  refine ⟨?_, ?_, ?_⟩
  · obtain ⟨⟨px, py⟩, off⟩ := cr
    by_cases h : (0 : α) = px ∧ (0 : α) = py
    · obtain ⟨hx, hy⟩ := h
      subst hx; subst hy
      refine ⟨(x1, y1), by simp, ?_, ?_⟩
      · simp [js_canvas_quadratic_curve_to]
      · intro hid
        simp [js_canvas_quadratic_curve_to, hid]
    · have hne : ¬ ((px, py) = ((0 : α), (0 : α))) := by
        intro hh
        rw [Prod.mk.injEq] at hh
        exact h ⟨hh.1.symm, hh.2.symm⟩
      refine ⟨(px, py), by rw [if_neg hne], ?_, ?_⟩
      · simp only [js_canvas_quadratic_curve_to, if_neg h]
      · intro hid
        simp only [js_canvas_quadratic_curve_to, if_neg h, hid]
  · refine ⟨50 / 3, 10 / 3, 70 / 3, 10 / 3, ?_, ?_, ?_, ?_, ?_⟩
    · simp only [js_canvas_quadratic_curve_to, FloatEnv.exact, id]
      norm_num
    all_goals (rw [abs_le]; constructor <;> norm_num)
  · have hc : binary64 (2 / 3) = 6004799503160661 / 2 ^ 53 := by
      rw [binary64_eval _ (-1) 6004799503160661 (by norm_num)
        (by rw [abs_of_pos (by norm_num)]; norm_num)
        (by rw [abs_of_pos (by norm_num)]; norm_num) (by norm_num)
        (roundNE_of_lt_half _ _ (by norm_num) (by norm_num))]
      norm_num
    have hp : binary64 (6004799503160661 / 2 ^ 53 * 10) = 3752999689475413 / 2 ^ 49 := by
      rw [binary64_eval _ 2 7505999378950826 (by norm_num)
        (by rw [abs_of_pos (by norm_num)]; norm_num)
        (by rw [abs_of_pos (by norm_num)]; norm_num) (by norm_num)
        (roundNE_of_lt_half _ _ (by norm_num) (by norm_num))]
      norm_num
    have hm : binary64 (6004799503160661 / 2 ^ 53 * -10) = -3752999689475413 / 2 ^ 49 := by
      rw [binary64_eval _ 2 (-7505999378950827 + 1) (by norm_num)
        (by rw [abs_of_neg (by norm_num)]; norm_num)
        (by rw [abs_of_neg (by norm_num)]; norm_num) (by norm_num)
        (roundNE_of_gt_half _ _ (by norm_num) (by norm_num))]
      norm_num
    have ha : binary64 (10 + 3752999689475413 / 2 ^ 49) = 2345624805922133 / 2 ^ 47 := by
      rw [binary64_eval _ 4 4691249611844266 (by norm_num)
        (by rw [abs_of_pos (by norm_num)]; norm_num)
        (by rw [abs_of_pos (by norm_num)]; norm_num) (by norm_num)
        (by
          have := roundNE_half_even 4691249611844266 (by norm_num)
          rw [← this]; congr 1; norm_num)]
      norm_num
    have hb : binary64 (10 + -3752999689475413 / 2 ^ 49) = 1876499844737707 / 2 ^ 49 := by
      rw [binary64_eval _ 1 7505999378950828 (by norm_num)
        (by rw [abs_of_pos (by norm_num)]; norm_num)
        (by rw [abs_of_pos (by norm_num)]; norm_num) (by norm_num)
        (by
          have := roundNE_intCast 7505999378950828
          rw [← this]; congr 1; norm_num)]
      norm_num
    have hcc : binary64 (30 + -3752999689475413 / 2 ^ 49) = 3283874728290987 / 2 ^ 47 := by
      rw [binary64_eval _ 4 (6567749456581973 + 1) (by norm_num)
        (by rw [abs_of_pos (by norm_num)]; norm_num)
        (by rw [abs_of_pos (by norm_num)]; norm_num) (by norm_num)
        (by
          have := roundNE_half_odd 6567749456581973 (by norm_num)
          rw [← this]; congr 1; norm_num)]
      norm_num
    have e1 : binary64 (20 - 10) = 10 := by
      rw [binary64_exact _ 3 5629499534213120 (by norm_num)
        (by rw [abs_of_pos (by norm_num)]; norm_num)
        (by rw [abs_of_pos (by norm_num)]; norm_num) (by norm_num) (by norm_num)]
      norm_num
    have e2 : binary64 (0 - 10) = -10 := by
      rw [binary64_exact _ 3 (-5629499534213120) (by norm_num)
        (by rw [abs_of_neg (by norm_num)]; norm_num)
        (by rw [abs_of_neg (by norm_num)]; norm_num) (by norm_num) (by norm_num)]
      norm_num
    have e3 : binary64 (20 - 30) = -10 := by
      rw [binary64_exact _ 3 (-5629499534213120) (by norm_num)
        (by rw [abs_of_neg (by norm_num)]; norm_num)
        (by rw [abs_of_neg (by norm_num)]; norm_num) (by norm_num) (by norm_num)]
      norm_num
    refine ⟨2345624805922133 / 2 ^ 47, 1876499844737707 / 2 ^ 49, 3283874728290987 / 2 ^ 47,
      1876499844737707 / 2 ^ 49, ?_, ?_, ?_, ?_, ?_⟩
    · have hne : ¬ ((0 : ℚ) = 10 ∧ (0 : ℚ) = 10) := by norm_num
      simp only [js_canvas_quadratic_curve_to, FloatEnv.ieee, hne, if_false, hc, e1, e2, e3, hp,
        hm, ha, hb, hcc]
    all_goals (rw [abs_le]; constructor <;> norm_num)

/-! ## Claims on `setLineDash` -/

/-- C6: for a dash array of numbers that are all zero (of any length, the
empty array included), `setLineDash` hands cairo the empty pattern together
with the dash offset cairo held before the call. -/
theorem set_line_dash_all_zero {α : Type} [Zero α] [DecidableEq α] (cr : Cairo α) (d : List α)
    (hz : ∀ x ∈ d, x = 0) :
    js_canvas_set_line_dash (some cr) (JSArrayLike.ofNumbers d)
      = (.JS_UNDEFINED, [.set_dash [] cr.dash_offset]) := by
  have hL : d.length % 2 ^ 32 ≤ d.length := Nat.mod_le _ _
  have hL2 : d.length % 2 ^ 32 < 2 ^ 32 := Nat.mod_lt _ (by norm_num)
  generalize hLdef : d.length % 2 ^ 32 = L at hL hL2
  have key : ∀ N, N < 2 ^ 32 → (0 < N → 0 < L) →
      dash_loop (JSArrayLike.ofNumbers d).item L N 0 [] 0
        = some ((List.range N).map (fun _ => (0 : α)), N) := by
    intro N hN hpos
    have hloop := dash_loop_spec (JSArrayLike.ofNumbers d).item L (fun _ => (0 : α)) N 0 [] 0
      (fun j hj => by
        have hm : (0 + j) % L < d.length :=
          lt_of_lt_of_le (Nat.mod_lt _ (hpos (by omega))) hL
        rw [ofNumbers_item, List.getElem?_eq_getElem hm]
        exact congrArg some (hz _ (List.getElem_mem hm)))
      (by omega)
    rw [hloop]
    have hc : ((List.range N).map (fun _ => (0 : α))).count 0 = N := by
      have : (List.range N).map (fun _ => (0 : α)) = List.replicate N 0 := by
        simp [List.eq_replicate_iff]
      rw [this, List.count_replicate_self]
    rw [hc]; simp
  simp only [js_canvas_set_line_dash, ofNumbers_length, hLdef]
  by_cases hpar : L % 2 = 1
  · have hN : L * 2 % 2 ^ 32 < 2 ^ 32 := Nat.mod_lt _ (by norm_num)
    simp only [hpar, if_true, key _ hN (fun _ => by omega)]
  · simp only [hpar, if_false, key _ hL2 (fun h => h), if_true]

/-- Witness of C6: the odd all-zero dash array `[0, 0, 0]`. -/
theorem set_line_dash_all_zero_witness :
    js_canvas_set_line_dash (some ⟨(0, 0), 7⟩) (JSArrayLike.ofNumbers [(0 : ℚ), 0, 0])
      = (.JS_UNDEFINED, [.set_dash [] 7]) :=
  set_line_dash_all_zero ⟨(0, 0), 7⟩ [(0 : ℚ), 0, 0] (by simp)

/-! ## Claims on the pixel copies -/

/-- C7 on the code: reading the 1x1 region at `(1, 0)` of the buffer `[1, 2]`
(row stride 2) returns pixel `source[0]`, so writing it back at `(1, 0)` of a
destination of the same size leaves `dest[1] = 1`, not `source[1] = 2`. -/
theorem get_put_round_trip_fails :
    js_canvas_get_image_data (fun _ => true) [1, 2] (some 1) (some 0) (some 1) (some 1) (some 2)
      = some (.ArrayBuffer [1], [1, 2]) ∧
    js_canvas_put_image_data [1] [0, 0] (some 1) (some 0) (some 0) (some 0) (some 1) (some 1)
      (some 2) = some (.JS_UNDEFINED, [1], [0, 1]) ∧
    ([0, 1] : List Nat)[((0 + 0) * 2 + (1 + 0) : Int).toNat]? ≠
      ([1, 2] : List Nat)[((0 + 0) * 2 + (1 + 0) : Int).toNat]? := by
  refine ⟨rfl, rfl, by decide⟩

/-- C8 (amended): `putImageData` whose source and destination are two
distinct `ArrayBuffer`s, on `int` arguments and buffers of fewer than `2 ^ 29`
pixels (an `ArrayBuffer` holds less than `2 ^ 31` bytes), with in-bounds
indices and the written columns inside one destination row
(`0 ≤ dx + dirtyX`, `dx + dirtyW ≤ destStride`), returns normally, leaves the
source as it was, and writes
`dest[(dy+y)*destStride + (dx+x)] = source[y*dirtyW + x]` for every `y` in
`[dirtyY, dirtyH)` and `x` in `[dirtyX, dirtyW)`; every destination cell whose
index is not of that form keeps its value, and with an empty row or column
range the destination is unchanged. -/
theorem put_image_data_spec (source dest : List Nat)
    (dx dy dirty_x dirty_y dirty_width dirty_height cw : Int)
    (hint : ∀ a ∈ [dx, dy, dirty_x, dirty_y, dirty_width, dirty_height, cw],
      -2 ^ 31 ≤ a ∧ a < 2 ^ 31)
    (hslen : (source.length : Int) < 2 ^ 29) (hdlen : (dest.length : Int) < 2 ^ 29)
    (hx0 : 0 ≤ dx + dirty_x) (hx1 : dx + dirty_width ≤ cw)
    (hsrc : ∀ y x, dirty_y ≤ y → y < dirty_height → dirty_x ≤ x → x < dirty_width →
      0 ≤ y * dirty_width + x ∧ y * dirty_width + x < source.length)
    (hdst : ∀ y x, dirty_y ≤ y → y < dirty_height → dirty_x ≤ x → x < dirty_width →
      0 ≤ (dy + y) * cw + (dx + x) ∧ (dy + y) * cw + (dx + x) < dest.length) :
    ∃ dest', js_canvas_put_image_data source dest (some dx) (some dy) (some dirty_x)
        (some dirty_y) (some dirty_width) (some dirty_height) (some cw)
        = some (.JS_UNDEFINED, source, dest') ∧
      dest'.length = dest.length ∧
      (∀ y x, dirty_y ≤ y → y < dirty_height → dirty_x ≤ x → x < dirty_width →
        dest'[((dy + y) * cw + (dx + x)).toNat]? = source[(y * dirty_width + x).toNat]?) ∧
      (∀ i : Nat, (∀ y x, dirty_y ≤ y → y < dirty_height → dirty_x ≤ x → x < dirty_width →
          (i : Int) ≠ (dy + y) * cw + (dx + x)) → dest'[i]? = dest[i]?) ∧
      ((dirty_height ≤ dirty_y ∨ dirty_width ≤ dirty_x) → dest' = dest) := by
  have hcw32 : cw < 2 ^ 31 := (hint cw (by simp)).2
  have hdw32 : dirty_width < 2 ^ 31 := (hint dirty_width (by simp)).2
  have key : ∀ y x : Int, (dy + y) * cw + (dx + x) = ((dy + y) * cw + dx) + x := by
    intro y x; ring
  have hxr : ∀ x : Int, dirty_x ≤ x →
      (x < dirty_x + ((dirty_width - dirty_x).toNat : Int) ↔ x < dirty_width) := by
    intro x hx; omega
  have hyr : ∀ y : Int, dirty_y ≤ y →
      (y < dirty_y + ((dirty_height - dirty_y).toNat : Int) ↔ y < dirty_height) := by
    intro y hy; omega
  obtain ⟨d', hd', hlen, hin, hout⟩ := copy_rect_spec source
    (fun y x => y * dirty_width + x) (fun y => (dy + y) * cw + dx)
    (dirty_width - dirty_x).toNat dirty_x (dirty_height - dirty_y).toNat dirty_y dest
    (fun y x h1 h2 h3 h4 => hsrc y x h1 ((hyr y h1).1 h2) h3 ((hxr x h3).1 h4))
    (fun y x h1 h2 h3 h4 => by
      have := hdst y x h1 ((hyr y h1).1 h2) h3 ((hxr x h3).1 h4)
      rw [key] at this; exact this)
    (fun y y2 x x2 h1 h2 h3 h4 h5 h6 h7 => by
      have hx : x < dirty_width := (hxr x h4).1 h5
      have hx2 : x2 < dirty_width := (hxr x2 h6).1 h7
      have hm : 0 ≤ (y2 - y - 1) * cw := mul_nonneg (by omega) (by omega)
      intro heq
      have e : (dy + y2) * cw = (dy + y) * cw + (y2 - y - 1) * cw + cw := by ring
      simp only [e] at heq
      omega)
  -- no `int` operation of the loop body overflows
  have hchk := for_loop_congr2
    (fun y x dest =>
      (int32 (dx + x)).bind fun dest_x =>
      (int32 (dy + y)).bind fun dest_y =>
      (int32 (y * dirty_width)).bind fun t => (int32 (t + x)).bind fun i =>
      (load source i).bind fun v =>
      (int32 (dest_y * cw)).bind fun u => (int32 (u + dest_x)).bind fun j =>
      store dest j v)
    (fun y x nb => (load source (y * dirty_width + x)).bind
      (fun v => store nb ((dy + y) * cw + dx + x) v))
    (dirty_width - dirty_x).toNat dirty_x (dirty_height - dirty_y).toNat dirty_y dest
    (fun y x h1 h2 h3 h4 t => by
      have hy : y < dirty_height := (hyr y h1).1 h2
      have hx : x < dirty_width := (hxr x h3).1 h4
      obtain ⟨hs0, hs1⟩ := hsrc y x h1 hy h3 hx
      obtain ⟨hd0, hd1⟩ := hdst y x h1 hy h3 hx
      obtain ⟨hl0, hl1⟩ := hsrc y (dirty_width - 1) h1 hy (by omega) (by omega)
      obtain ⟨hp0, hp1⟩ := row_product_fits y dirty_width source.length hdw32 hslen hl0 hl1
      obtain ⟨hr0, hr1, hq0, hq1⟩ :=
        stride_row_fits (dy + y) cw (dx + x) dest.length (by omega) (by omega) hdlen hd0 hd1
      simp only [int32_of_fits (z := dx + x) (by omega) (by omega),
        int32_of_fits (z := dy + y) (by omega) hr1, int32_of_fits hp0 hp1,
        int32_of_fits (z := y * dirty_width + x) (by omega) (by omega),
        int32_of_fits (z := (dy + y) * cw) (by omega) hq1,
        int32_of_fits (z := (dy + y) * cw + dx + x) (by omega) (by omega),
        Option.some_bind, key])
  refine ⟨d', ?_, hlen, ?_, ?_, ?_⟩
  · simp only [js_canvas_put_image_data]
    rw [hchk, hd']; rfl
  · intro y x h1 h2 h3 h4
    have := hin y x h1 ((hyr y h1).2 h2) h3 ((hxr x h3).2 h4)
    rw [key]; exact this
  · intro i hi
    exact hout i (fun y x h1 h2 h3 h4 => by
      have := hi y x h1 ((hyr y h1).1 h2) h3 ((hxr x h3).1 h4)
      rw [key] at this; exact this)
  · intro hempty
    apply List.ext_getElem?
    intro i
    exact hout i (fun y x h1 h2 h3 h4 => by
      have := (hyr y h1).1 h2
      have := (hxr x h3).1 h4
      omega)

/-- Witness of C8: a 2x1 image written at column 1 of a 3x2 destination. -/
theorem put_image_data_spec_witness :
    ∃ dest', js_canvas_put_image_data [10, 13] [0, 0, 0, 0, 0, 0] (some 1) (some 0) (some 0)
        (some 0) (some 1) (some 2) (some 3) = some (.JS_UNDEFINED, [10, 13], dest') ∧
      dest'.length = [0, 0, 0, 0, 0, 0].length ∧
      (∀ y x : Int, 0 ≤ y → y < 2 → 0 ≤ x → x < 1 →
        dest'[((0 + y) * 3 + (1 + x)).toNat]? = [10, 13][(y * 1 + x).toNat]?) ∧
      (∀ i : Nat, (∀ y x : Int, 0 ≤ y → y < 2 → 0 ≤ x → x < 1 →
          (i : Int) ≠ (0 + y) * 3 + (1 + x)) → dest'[i]? = [0, 0, 0, 0, 0, 0][i]?) ∧
      (((2 : Int) ≤ 0 ∨ (1 : Int) ≤ 0) → dest' = [0, 0, 0, 0, 0, 0]) :=
  put_image_data_spec [10, 13] [0, 0, 0, 0, 0, 0] 1 0 0 0 1 2 3 (by decide) (by decide)
    (by decide) (by decide) (by decide)
    (fun y x h1 h2 h3 h4 => by simp only [List.length_cons, List.length_nil]; omega)
    (fun y x h1 h2 h3 h4 => by simp only [List.length_cons, List.length_nil]; omega)

/-- C8 as stated fails when one `ArrayBuffer` is passed as source and as
destination.  On `[1, 2, 3]` with `dx = 1`, `dy = 0`, `dirtyX = dirtyY = 0`,
`dirtyW = 2`, `dirtyH = 1`, `destStride = 3` the buffer becomes `[1, 1, 1]`:
cell `(0+0)*3 + (1+1) = 2` holds `1`, not the `2` that source cell
`0*2 + 1 = 1` held at the call.  On `[1, 2, 3, 4, 5, 6]` with `dx = 0`,
`dy = -1`, `dirtyX = 0`, `dirtyY = 1`, `dirtyW = 2`, `dirtyH = 3`,
`destStride = 2` the buffer becomes `[3, 4, 5, 6, 5, 6]`: cell
`(-1+1)*2 + (0+0) = 0` holds `3`, not the `5` that source cell `1*2 + 0 = 2`
holds after the call. -/
theorem put_image_data_same_buffer_counterexample :
    js_canvas_put_image_data_same_buffer [1, 2, 3] (some 1) (some 0) (some 0) (some 0) (some 2)
      (some 1) (some 3) = some (.JS_UNDEFINED, [1, 1, 1]) ∧
    ([1, 1, 1] : List Nat)[((0 + 0) * 3 + (1 + 1) : Int).toNat]? ≠
      ([1, 2, 3] : List Nat)[(0 * 2 + 1 : Int).toNat]? ∧
    js_canvas_put_image_data_same_buffer [1, 2, 3, 4, 5, 6] (some 0) (some (-1)) (some 0) (some 1)
      (some 2) (some 3) (some 2) = some (.JS_UNDEFINED, [3, 4, 5, 6, 5, 6]) ∧
    ([3, 4, 5, 6, 5, 6] : List Nat)[((-1 + 1) * 2 + (0 + 0) : Int).toNat]? ≠
      ([3, 4, 5, 6, 5, 6] : List Nat)[(1 * 2 + 0 : Int).toNat]? := by
  refine ⟨rfl, by decide, rfl, by decide⟩

/-- C9 (amended): `getImageData` with `sw, sh ≥ 0`, a size `sw * sh * 4`
that fits in an `int`, a granted allocation and in-bounds reads of a source
of fewer than `2 ^ 29` pixels (an `ArrayBuffer` holds less than `2 ^ 31`
bytes) returns a new buffer of exactly `sw * sh` pixels with
`result[y*sw + x] = source[y*cw + x]` for `0 ≤ y < sh`, `0 ≤ x < sw`; the
source buffer is as before, and the same result comes back for every other
`sx`, `sy`. -/
theorem get_image_data_spec (js_malloc : Nat → Bool) (buffer : List Nat) (sx sy sw sh cw : Int)
    (hblen : (buffer.length : Int) < 2 ^ 29)
    (hsw : 0 ≤ sw) (hsh : 0 ≤ sh) (hsize : sw * sh * 4 < 2 ^ 31)
    (halloc : js_malloc (sw * sh * 4).toNat = true)
    (hsrc : ∀ y x, 0 ≤ y → y < sh → 0 ≤ x → x < sw →
      0 ≤ y * cw + x ∧ y * cw + x < buffer.length) :
    ∃ result, js_canvas_get_image_data js_malloc buffer (some sx) (some sy) (some sw) (some sh)
        (some cw) = some (.ArrayBuffer result, buffer) ∧
      result.length = (sw * sh).toNat ∧
      (∀ y x, 0 ≤ y → y < sh → 0 ≤ x → x < sw →
        result[(y * sw + x).toNat]? = buffer[(y * cw + x).toNat]?) ∧
      (∀ sx2 sy2, js_canvas_get_image_data js_malloc buffer (some sx2) (some sy2) (some sw)
        (some sh) (some cw) = some (.ArrayBuffer result, buffer)) := by
  have hprod : 0 ≤ sw * sh := mul_nonneg hsw hsh
  have hsz1 : int32 (sw * sh) = some (sw * sh) := int32_of_fits (by omega) (by omega)
  have hsz2 : int32 (sw * sh * 4) = some (sw * sh * 4) := int32_of_fits (by omega) hsize
  have hsize64 : ((sw * sh * 4) % 2 ^ 64).toNat = (sw * sh * 4).toNat := by
    rw [Int.emod_eq_of_lt (by omega) (by omega)]
  have hquarter : (sw * sh * 4).toNat / 4 = (sw * sh).toNat := by omega
  have hxr : ∀ x : Int, (x < 0 + ((sw.toNat : Nat) : Int) ↔ x < sw) := by intro x; omega
  have hyr : ∀ y : Int, (y < 0 + ((sh.toNat : Nat) : Int) ↔ y < sh) := by intro y; omega
  -- a written index `y * sw + x` lies inside the new buffer
  have hwr : ∀ y x : Int, 0 ≤ y → y < sh → 0 ≤ x → x < sw →
      0 ≤ y * sw ∧ y * sw + x < sw * sh ∧ sw ≤ sw * sh := by
    intro y x h1 h2 h3 h4
    have h5 : 0 ≤ y * sw := mul_nonneg h1 hsw
    have h6 : 0 ≤ (sh - 1 - y) * sw := mul_nonneg (by omega) hsw
    have e : sw * sh = y * sw + (sh - 1 - y) * sw + sw := by ring
    exact ⟨h5, by omega, by omega⟩
  obtain ⟨d', hd', hlen, hin, _⟩ := copy_rect_spec buffer
    (fun y x => y * cw + x) (fun y => y * sw) sw.toNat 0 sh.toNat 0
    (List.replicate (sw * sh).toNat 0)
    (fun y x h1 h2 h3 h4 => hsrc y x h1 ((hyr y).1 h2) h3 ((hxr x).1 h4))
    (fun y x h1 h2 h3 h4 => by
      obtain ⟨h5, h6, _⟩ := hwr y x h1 ((hyr y).1 h2) h3 ((hxr x).1 h4)
      simp only [List.length_replicate]
      rw [Int.toNat_of_nonneg hprod]
      omega)
    (fun y y2 x x2 h1 h2 h3 h4 h5 h6 h7 => by
      have hx : x < sw := (hxr x).1 h5
      have hm : 0 ≤ (y2 - y - 1) * sw := mul_nonneg (by omega) hsw
      intro heq
      have e : y2 * sw = y * sw + (y2 - y - 1) * sw + sw := by ring
      simp only [e] at heq
      omega)
  -- no `int` operation of the loop body overflows
  have hchk := for_loop_congr2
    (fun y x nb =>
      (int32 (y * cw)).bind fun t => (int32 (t + x)).bind fun i =>
      (load buffer i).bind fun v =>
      (int32 (y * sw)).bind fun u => (int32 (u + x)).bind fun j =>
      store nb j v)
    (fun y x nb => (load buffer (y * cw + x)).bind (fun v => store nb (y * sw + x) v))
    sw.toNat 0 sh.toNat 0 (List.replicate (sw * sh).toNat 0)
    (fun y x h1 h2 h3 h4 t => by
      have hy : y < sh := (hyr y).1 h2
      have hx : x < sw := (hxr x).1 h4
      obtain ⟨hs0, hs1⟩ := hsrc y x h1 hy h3 hx
      obtain ⟨h5, h6, h7⟩ := hwr y x h1 hy h3 hx
      simp only [int32_of_fits (z := y * cw) (by omega) (by omega),
        int32_of_fits (z := y * cw + x) (by omega) (by omega),
        int32_of_fits (z := y * sw) (by omega) (by omega),
        int32_of_fits (z := y * sw + x) (by omega) (by omega), Option.some_bind])
  have hcall : ∀ sx2 sy2 : Int, js_canvas_get_image_data js_malloc buffer (some sx2) (some sy2)
      (some sw) (some sh) (some cw) = some (.ArrayBuffer d', buffer) := by
    intro sx2 sy2
    simp only [js_canvas_get_image_data, hsz1, Option.some_bind, hsz2, hsize64, halloc, hquarter]
    simp only [Bool.true_eq_false, if_false]
    rw [hchk, hd']; rfl
  refine ⟨d', hcall sx sy, ?_, ?_, hcall⟩
  · rw [hlen, List.length_replicate]
  · intro y x h1 h2 h3 h4
    exact hin y x h1 ((hyr y).2 h2) h3 ((hxr x).2 h4)

/-- Witness of C9: a 1x2 region of a buffer of row stride 3. -/
theorem get_image_data_spec_witness :
    ∃ result, js_canvas_get_image_data (fun _ => true) [10, 11, 12, 13, 14, 15] (some 1)
        (some 0) (some 1) (some 2) (some 3) = some (.ArrayBuffer result, [10, 11, 12, 13, 14, 15]) ∧
      result.length = ((1 : Int) * 2).toNat ∧
      (∀ y x : Int, 0 ≤ y → y < 2 → 0 ≤ x → x < 1 →
        result[(y * 1 + x).toNat]? = [10, 11, 12, 13, 14, 15][(y * 3 + x).toNat]?) ∧
      (∀ sx2 sy2 : Int, js_canvas_get_image_data (fun _ => true) [10, 11, 12, 13, 14, 15]
        (some sx2) (some sy2) (some 1) (some 2) (some 3)
          = some (.ArrayBuffer result, [10, 11, 12, 13, 14, 15])) :=
  get_image_data_spec (fun _ => true) [10, 11, 12, 13, 14, 15] 1 0 1 2 3 (by decide) (by decide)
    (by decide) (by decide) rfl
    (fun y x h1 h2 h3 h4 => by simp only [List.length_cons, List.length_nil]; omega)

/-- C9 as stated fails: for a 32768 x 32768 region of a buffer of row
stride 1 and 65536 pixels every read `buffer[y*1 + x]` is in bounds, but the
`int` product `sw * sh * 4 = 2 ^ 32` overflows, which is undefined behaviour:
no buffer of `sw * sh` pixels is returned. -/
theorem get_image_data_size_counterexample :
    (∀ y x : Int, 0 ≤ y → y < 32768 → 0 ≤ x → x < 32768 →
      0 ≤ y * 1 + x ∧ y * 1 + x < ((List.replicate 65536 0 : List Nat).length : Int)) ∧
    js_canvas_get_image_data (fun _ => true) (List.replicate 65536 0) (some 0) (some 0)
      (some 32768) (some 32768) (some 1) = none := by
  constructor
  · intro y x h1 h2 h3 h4
    rw [List.length_replicate]
    omega
  · have h1 : int32 (32768 * 32768) = some 1073741824 := by
      rw [int32, if_pos (by norm_num)]; norm_num
    have h2 : int32 (1073741824 * 4) = none := by
      rw [int32, if_neg (by norm_num)]
    simp only [js_canvas_get_image_data, h1, Option.some_bind, h2]

/-! ## Claim on the degenerate cases of `arcTo` -/

/-- C10 (amended): when `P1 = P0`, or `P1 = P2`, or `radius = 0`, `arcTo`
issues exactly one cairo call, a line-to the point `P1` converted to `float`
(`P1` itself when the conversion leaves its coordinates as they are). -/
theorem arc_to_degenerate {α : Type} [LinearOrderedField α] (E : FloatEnv α) (cr : Cairo α)
    (x1 y1 x2 y2 radius : α)
    (h0 : E.rf 0 = 0)
    (h : (x1 = cr.point.1 ∧ y1 = cr.point.2) ∨ (x1 = x2 ∧ y1 = y2) ∨ radius = 0) :
    js_canvas_arc_to E (some cr) (some x1) (some y1) (some x2) (some y2) (some radius)
      = (.JS_UNDEFINED, [.line_to (E.rf x1) (E.rf y1)]) ∧
    (E.rf x1 = x1 → E.rf y1 = y1 →
      js_canvas_arc_to E (some cr) (some x1) (some y1) (some x2) (some y2) (some radius)
        = (.JS_UNDEFINED, [.line_to x1 y1])) := by
  have hc : (E.rf x1 = E.rf cr.point.1 ∧ E.rf y1 = E.rf cr.point.2) ∨
      (E.rf x1 = E.rf x2 ∧ E.rf y1 = E.rf y2) ∨ E.rf radius = 0 := by
    rcases h with ⟨ha, hb⟩ | ⟨ha, hb⟩ | ha
    · exact Or.inl ⟨by rw [ha], by rw [hb]⟩
    · exact Or.inr (Or.inl ⟨by rw [ha], by rw [hb]⟩)
    · exact Or.inr (Or.inr (by rw [ha, h0]))
  have main : js_canvas_arc_to E (some cr) (some x1) (some y1) (some x2) (some y2) (some radius)
      = (.JS_UNDEFINED, [.line_to (E.rf x1) (E.rf y1)]) := by
    simp only [js_canvas_arc_to]
    rw [if_pos hc]
  refine ⟨main, fun hx hy => ?_⟩
  rw [main, hx, hy]

/-- Witness of C10: IEEE arithmetic, `P1 = P0 = (1/2, 1/4)`, whose
coordinates are `float`s. -/
theorem arc_to_degenerate_witness :
    js_canvas_arc_to (FloatEnv.ieee id id id id) (some ⟨(1 / 2, 1 / 4), 0⟩) (some (1 / 2))
        (some (1 / 4)) (some 3) (some 4) (some 5)
      = (.JS_UNDEFINED, [.line_to ((FloatEnv.ieee id id id id).rf (1 / 2))
          ((FloatEnv.ieee id id id id).rf (1 / 4))]) ∧
    ((FloatEnv.ieee id id id id).rf (1 / 2) = 1 / 2 →
      (FloatEnv.ieee id id id id).rf (1 / 4) = 1 / 4 →
      js_canvas_arc_to (FloatEnv.ieee id id id id) (some ⟨(1 / 2, 1 / 4), 0⟩) (some (1 / 2))
          (some (1 / 4)) (some 3) (some 4) (some 5)
        = (.JS_UNDEFINED, [.line_to (1 / 2) (1 / 4)])) :=
  arc_to_degenerate (FloatEnv.ieee id id id id) ⟨(1 / 2, 1 / 4), 0⟩ (1 / 2) (1 / 4) 3 4 5
    (roundBinary_zero 24 (-149)) (Or.inl ⟨rfl, rfl⟩)

/-- C10 as stated fails: with `P0 = P1 = (0.1, 0)` (`0.1` the `double`
`3602879701896397 / 2^55`), `arcTo` issues a line-to `(13421773 / 2^27, 0)`,
the `float` nearest to `P1`, not a line-to `P1`. -/
theorem arc_to_degenerate_counterexample :
    binary64 (3602879701896397 / 2 ^ 55) = 3602879701896397 / 2 ^ 55 ∧
    js_canvas_arc_to (FloatEnv.ieee id id id id) (some ⟨(3602879701896397 / 2 ^ 55, 0), 0⟩)
        (some (3602879701896397 / 2 ^ 55)) (some 0) (some 1) (some 1) (some 1)
      = (.JS_UNDEFINED, [.line_to (13421773 / 2 ^ 27) 0]) ∧
    (13421773 / 2 ^ 27 : ℚ) ≠ 3602879701896397 / 2 ^ 55 := by
  have hf : binary32 (3602879701896397 / 2 ^ 55) = 13421773 / 2 ^ 27 := by
    rw [binary32_eval _ (-4) (13421772 + 1) (by norm_num)
      (by rw [abs_of_pos (by norm_num)]; norm_num)
      (by rw [abs_of_pos (by norm_num)]; norm_num) (by norm_num)
      (roundNE_of_gt_half _ _ (by norm_num) (by norm_num))]
    norm_num
  have h0 : binary32 0 = 0 := roundBinary_zero _ _
  refine ⟨?_, ?_, by norm_num⟩
  · exact binary64_exact _ (-4) 7205759403792794 (by norm_num)
      (by rw [abs_of_pos (by norm_num)]; norm_num)
      (by rw [abs_of_pos (by norm_num)]; norm_num) (by norm_num) (by norm_num)
  · simp only [js_canvas_arc_to, FloatEnv.ieee, hf, h0, true_and, and_self, true_or, if_true]

/-! ## Lemmas on the cases of `arcTo` -/

/-- The four cases of `js_canvas_arc_to` in terms of the named quantities. -/
theorem js_canvas_arc_to_cases {α : Type} [LinearOrderedField α] (E : FloatEnv α)
    (px py off a0 a1 a2 a3 a4 : α) :
    js_canvas_arc_to E (some ⟨(px, py), off⟩) (some a0) (some a1) (some a2) (some a3) (some a4)
      = if (E.rf a0 = E.rf px ∧ E.rf a1 = E.rf py) ∨ (E.rf a0 = E.rf a2 ∧ E.rf a1 = E.rf a3) ∨
            E.rf a4 = 0 then
          (.JS_UNDEFINED, [.line_to (E.rf a0) (E.rf a1)])
        else if -1 = arc_to_cos_phi E ⟨(px, py), off⟩ a0 a1 a2 a3 then
          (.JS_UNDEFINED, [.line_to (E.rf a0) (E.rf a1)])
        else if 1 = arc_to_cos_phi E ⟨(px, py), off⟩ a0 a1 a2 a3 then
          (.JS_UNDEFINED, [.line_to (arc_to_far_point E ⟨(px, py), off⟩ a0 a1).x
            (arc_to_far_point E ⟨(px, py), off⟩ a0 a1).y])
        else if arc_to_anticlockwise E (arc_to_general_case E ⟨(px, py), off⟩ a0 a1 a2 a3 a4).sa
              (arc_to_general_case E ⟨(px, py), off⟩ a0 a1 a2 a3 a4).ea = true ∧
            E.rd (E.M_PI * 2) ≠ (arc_to_general_case E ⟨(px, py), off⟩ a0 a1 a2 a3 a4).radius then
          (.JS_UNDEFINED,
            [.line_to (arc_to_general_case E ⟨(px, py), off⟩ a0 a1 a2 a3 a4).t_p1p0.x
                (arc_to_general_case E ⟨(px, py), off⟩ a0 a1 a2 a3 a4).t_p1p0.y,
              .arc_negative (arc_to_general_case E ⟨(px, py), off⟩ a0 a1 a2 a3 a4).p.x
                (arc_to_general_case E ⟨(px, py), off⟩ a0 a1 a2 a3 a4).p.y
                (arc_to_general_case E ⟨(px, py), off⟩ a0 a1 a2 a3 a4).radius
                (arc_to_general_case E ⟨(px, py), off⟩ a0 a1 a2 a3 a4).sa
                (arc_to_general_case E ⟨(px, py), off⟩ a0 a1 a2 a3 a4).ea])
        else
          (.JS_UNDEFINED,
            [.line_to (arc_to_general_case E ⟨(px, py), off⟩ a0 a1 a2 a3 a4).t_p1p0.x
                (arc_to_general_case E ⟨(px, py), off⟩ a0 a1 a2 a3 a4).t_p1p0.y,
              .arc (arc_to_general_case E ⟨(px, py), off⟩ a0 a1 a2 a3 a4).p.x
                (arc_to_general_case E ⟨(px, py), off⟩ a0 a1 a2 a3 a4).p.y
                (arc_to_general_case E ⟨(px, py), off⟩ a0 a1 a2 a3 a4).radius
                (arc_to_general_case E ⟨(px, py), off⟩ a0 a1 a2 a3 a4).sa
                (arc_to_general_case E ⟨(px, py), off⟩ a0 a1 a2 a3 a4).ea]) :=
  rfl

/-! ## Claims on `ellipse` -/

/-- C13 on the code: in IEEE arithmetic `ellipse(0, 0, 1, 1, 0, 0, twoPi, true)`
(rotation `0`, sweep exactly `twoPi`, anticlockwise) issues
`cairo_arc_negative` from angle `0` to angle `twoPi`: a reverse arc whose end
angle is a full turn above its start angle, which sweeps nothing.  The guard
of the reverse arc compares `M_PI * 2` with the rotation. -/
theorem ellipse_full_turn_reverse (m : cairo_matrix_t ℚ) :
    js_canvas_ellipse (FloatEnv.ieee id id id id) (some ⟨(0, 0), 0⟩) m (some 0) (some 0)
        (some 1) (some 1) (some 0) (some 0) (some (twoPi (FloatEnv.ieee id id id id))) true
      = (.JS_UNDEFINED, [.translate 0 0, .rotate 0, .scale (binary64 (1 / 1)) 1,
          .translate (-0) (-0), .arc_negative 0 0 1 0 (twoPi (FloatEnv.ieee id id id id)),
          .set_matrix m]) ∧
    reverse_sweep (twoPi (FloatEnv.ieee id id id id)) 0 (twoPi (FloatEnv.ieee id id id id)) = 0 := by
  have hT := twoPi_ieee id id id id
  have hT' : (FloatEnv.ieee id id id id).rd ((FloatEnv.ieee id id id id).M_PI * 2)
      = 884279719003555 / 2 ^ 47 := hT
  constructor
  · have h0 : ¬ ((1 : ℚ) = 0 ∨ (1 : ℚ) = 0) := by norm_num
    have hg : (True ∧ (FloatEnv.ieee id id id id).rd ((FloatEnv.ieee id id id id).M_PI * 2)
        ≠ (0 : ℚ)) := ⟨trivial, by rw [hT']; norm_num⟩
    simp only [js_canvas_ellipse, if_neg h0, if_pos hg]
    rfl
  · rw [hT]
    simp only [reverse_sweep]
    norm_num

/-! ## More lemmas on `fmod` -/

theorem fmod_int_multiple {α : Type} [LinearOrderedField α] [FloorRing α] (x y : α) :
    ∃ n : ℤ, fmod x y = x - n * y :=
  ⟨_, rfl⟩

theorem fmod_nonneg {α : Type} [LinearOrderedField α] [FloorRing α]
    {x y : α} (hx : 0 ≤ x) (hy : 0 < y) : 0 ≤ fmod x y := by
  have hyne : y ≠ 0 := ne_of_gt hy
  have hxy : x = x / y * y := by field_simp
  have hq : 0 ≤ x / y := div_nonneg hx hy.le
  have h1 := Int.floor_le (x / y)
  have e : fmod x y = (x / y - ⌊x / y⌋) * y := by
    simp only [fmod, hq, if_true]; rw [sub_mul, ← hxy]
  rw [e]
  exact mul_nonneg (by linarith) hy.le

theorem fmod_eq_self_of_neg {α : Type} [LinearOrderedField α] [FloorRing α]
    {x y : α} (h0 : x < 0) (h1 : -y < x) : fmod x y = x := by
  have hy : 0 < y := by linarith
  have hq : ¬ 0 ≤ x / y := not_le.mpr (div_neg_of_neg_of_pos h0 hy)
  have hc : ⌈x / y⌉ = 0 := by
    rw [Int.ceil_eq_iff]
    constructor
    · rw [lt_div_iff₀ hy]
      push_cast
      linarith
    · push_cast
      exact (not_le.mp hq).le
  simp [fmod, hq, hc]

/-- In exact arithmetic `canonicalizeAngle` moves the start angle by a whole
number of turns into `[0, 2 pi)` and moves the end angle by the same amount. -/
theorem canonicalizeAngle_exact {α : Type} [LinearOrderedField α] [FloorRing α]
    (pi : α) (sqrt acos tan : α → α) (s e : α) (hpi : 0 < pi) :
    (0 ≤ (canonicalizeAngle (FloatEnv.exact pi sqrt acos tan) s e).1 ∧
      (canonicalizeAngle (FloatEnv.exact pi sqrt acos tan) s e).1 < pi * 2) ∧
    (∃ n : ℤ, (canonicalizeAngle (FloatEnv.exact pi sqrt acos tan) s e).1 - s = n * (pi * 2)) ∧
    (canonicalizeAngle (FloatEnv.exact pi sqrt acos tan) s e).2
        - (canonicalizeAngle (FloatEnv.exact pi sqrt acos tan) s e).1 = e - s := by
  have hT : 0 < pi * 2 := by linarith
  obtain ⟨hlo, hhi⟩ := fmod_abs_lt s hT
  obtain ⟨n, hn⟩ := fmod_int_multiple s (pi * 2)
  have hcan : canonicalizeAngle (FloatEnv.exact pi sqrt acos tan) s e
      = (if fmod s (pi * 2) < 0 then fmod s (pi * 2) + pi * 2 else fmod s (pi * 2),
         e + ((if fmod s (pi * 2) < 0 then fmod s (pi * 2) + pi * 2 else fmod s (pi * 2)) - s)) := by
    simp only [canonicalizeAngle, twoPi, FloatEnv.exact, id]
    by_cases hf : fmod s (pi * 2) < 0
    · have hlt : ¬ (fmod s (pi * 2) + pi * 2 ≥ pi * 2) := by
        rw [not_le]; linarith
      simp only [if_pos hf, if_neg hlt]
    · simp only [if_neg hf]
  rw [hcan]
  by_cases hf : fmod s (pi * 2) < 0
  · simp only [if_pos hf]
    refine ⟨⟨by linarith, by linarith⟩, ⟨1 - n, ?_⟩, by ring⟩
    rw [hn]; push_cast; ring
  · simp only [if_neg hf]
    refine ⟨⟨not_lt.mp hf, hhi⟩, ⟨-n, ?_⟩, by ring⟩
    rw [hn]; push_cast; ring

/-! ## Claim on `canonicalizeAngle` -/

/-- C14 (amended): for a monotone rounding that leaves `0` and `twoPi` as they
are, `canonicalizeAngle` returns a start angle `s'` with `0 ≤ s' < twoPi`; when
`0 ≤ startAngle`, `s' - startAngle` is an integer multiple of `twoPi`; when
`0 ≤ startAngle < twoPi` and `endAngle` is a `double`, both angles come back
unchanged.  In exact arithmetic (with `0 < pi`) `0 ≤ s' < 2 pi`,
`s' - startAngle` is an integer multiple of `2 pi` and
`e' - s' = endAngle - startAngle`, for every `startAngle` and `endAngle`. -/
theorem canonicalizeAngle_spec {α : Type} [LinearOrderedField α] [FloorRing α]
    (E : FloatEnv α) (pi : α) (sqrt acos tan : α → α) (s e : α)
    (hpos : 0 < twoPi E) (h0 : E.rd 0 = 0) (hT : E.rd (twoPi E) = twoPi E)
    (hmono : Monotone E.rd) (hpi : 0 < pi) :
    (0 ≤ (canonicalizeAngle E s e).1 ∧ (canonicalizeAngle E s e).1 < twoPi E) ∧
    (0 ≤ s → ∃ n : ℤ, (canonicalizeAngle E s e).1 - s = n * twoPi E) ∧
    (0 ≤ s → s < twoPi E → E.rd e = e → canonicalizeAngle E s e = (s, e)) ∧
    ((0 ≤ (canonicalizeAngle (FloatEnv.exact pi sqrt acos tan) s e).1 ∧
        (canonicalizeAngle (FloatEnv.exact pi sqrt acos tan) s e).1 < pi * 2) ∧
      (∃ n : ℤ, (canonicalizeAngle (FloatEnv.exact pi sqrt acos tan) s e).1 - s
        = n * (pi * 2)) ∧
      (canonicalizeAngle (FloatEnv.exact pi sqrt acos tan) s e).2
        - (canonicalizeAngle (FloatEnv.exact pi sqrt acos tan) s e).1 = e - s) := by
  refine ⟨canonicalizeAngle_start_range E s e hpos h0 hT hmono, ?_, ?_,
    canonicalizeAngle_exact pi sqrt acos tan s e hpi⟩
  · intro hs
    obtain ⟨n, hn⟩ := fmod_int_multiple s (twoPi E)
    have hf : ¬ fmod s (twoPi E) < 0 := not_lt.mpr (fmod_nonneg hs hpos)
    have h1 : (canonicalizeAngle E s e).1 = fmod s (twoPi E) := by
      simp only [canonicalizeAngle, if_neg hf]
    refine ⟨-n, ?_⟩
    rw [h1, hn]; push_cast; ring
  · intro hs0 hs1 he
    rw [canonicalizeAngle_of_range E s e h0 hs0 hs1, he]

/-- Witness of C14: in IEEE `double` arithmetic at `startAngle = 1`,
`endAngle = 2`, and in exact arithmetic with `M_PI = 22/7` at the same
angles. -/
theorem canonicalizeAngle_spec_witness :
    (0 ≤ (canonicalizeAngle (FloatEnv.ieee id id id id) 1 2).1 ∧
      (canonicalizeAngle (FloatEnv.ieee id id id id) 1 2).1
        < twoPi (FloatEnv.ieee id id id id)) ∧
    (∃ n : ℤ, (canonicalizeAngle (FloatEnv.ieee id id id id) 1 2).1 - 1
      = n * twoPi (FloatEnv.ieee id id id id)) ∧
    canonicalizeAngle (FloatEnv.ieee id id id id) 1 2 = (1, 2) ∧
    ((0 ≤ (canonicalizeAngle (FloatEnv.exact (22 / 7 : ℚ) id id id) 1 2).1 ∧
        (canonicalizeAngle (FloatEnv.exact (22 / 7 : ℚ) id id id) 1 2).1 < 22 / 7 * 2) ∧
      (∃ n : ℤ, (canonicalizeAngle (FloatEnv.exact (22 / 7 : ℚ) id id id) 1 2).1 - 1
        = n * (22 / 7 * 2)) ∧
      (canonicalizeAngle (FloatEnv.exact (22 / 7 : ℚ) id id id) 1 2).2
        - (canonicalizeAngle (FloatEnv.exact (22 / 7 : ℚ) id id id) 1 2).1 = 2 - 1) := by
  obtain ⟨h1, h2, h3, h4⟩ :=
    canonicalizeAngle_spec (FloatEnv.ieee id id id id) (22 / 7 : ℚ) id id id 1 2
      (twoPi_ieee_pos id id id id) (roundBinary_zero 53 (-1074)) (binary64_twoPi id id id id)
      binary64_monotone (by norm_num)
  exact ⟨h1, h2 (by norm_num), h3 (by norm_num) (by rw [twoPi_ieee]; norm_num)
    (show binary64 (2 : ℚ) = 2 from binary64_exact 2 1 4503599627370496 (by norm_num)
      (by rw [abs_of_pos (by norm_num)]; norm_num)
      (by rw [abs_of_pos (by norm_num)]; norm_num) (by norm_num) (by norm_num)), h4⟩

/-- C14 as stated fails in `double` arithmetic: for the `double`s
`startAngle = -(1 / 2^70)` and `endAngle = 1`, `canonicalizeAngle` returns
`(0, 1)`: the start angle moved by `1 / 2^70`, which is not an integer
multiple of `twoPi`, and the sweep changed from `1 + 1 / 2^70` to `1`. -/
theorem canonicalizeAngle_counterexample :
    binary64 (-(1 / 2 ^ 70)) = -(1 / 2 ^ 70) ∧
    canonicalizeAngle (FloatEnv.ieee id id id id) (-(1 / 2 ^ 70)) 1 = (0, 1) ∧
    (¬ ∃ n : ℤ, (canonicalizeAngle (FloatEnv.ieee id id id id) (-(1 / 2 ^ 70)) 1).1
        - -(1 / 2 ^ 70) = n * twoPi (FloatEnv.ieee id id id id)) ∧
    (canonicalizeAngle (FloatEnv.ieee id id id id) (-(1 / 2 ^ 70)) 1).2
        - (canonicalizeAngle (FloatEnv.ieee id id id id) (-(1 / 2 ^ 70)) 1).1
      ≠ 1 - -(1 / 2 ^ 70) := by
  have hfmod : fmod (-(1 / 2 ^ 70) : ℚ) (884279719003555 / 2 ^ 47) = -(1 / 2 ^ 70) :=
    fmod_eq_self_of_neg (by norm_num) (by norm_num)
  have h1 : binary64 (-(1 / 2 ^ 70) + 884279719003555 / 2 ^ 47) = 884279719003555 / 2 ^ 47 := by
    rw [binary64_eval _ 2 7074237752028440 (by norm_num)
      (by rw [abs_of_pos (by norm_num)]; norm_num)
      (by rw [abs_of_pos (by norm_num)]; norm_num) (by norm_num)
      (by
        have := roundNE_of_gt_half
          ((-(1 / 2 ^ 70) + 884279719003555 / 2 ^ 47) / 2 ^ ((2 : ℤ) - 52)) 7074237752028439
          (by norm_num) (by norm_num)
        rw [this]; norm_num)]
    norm_num
  have h2 : binary64 ((0 : ℚ) - -(1 / 2 ^ 70)) = 1 / 2 ^ 70 := by
    rw [binary64_exact _ (-70) 4503599627370496 (by norm_num)
      (by rw [abs_of_pos (by norm_num)]; norm_num)
      (by rw [abs_of_pos (by norm_num)]; norm_num) (by norm_num) (by norm_num)]
    norm_num
  have h3 : binary64 ((1 : ℚ) + 1 / 2 ^ 70) = 1 := by
    rw [binary64_eval _ 0 4503599627370496 (by norm_num)
      (by rw [abs_of_pos (by norm_num)]; norm_num)
      (by rw [abs_of_pos (by norm_num)]; norm_num) (by norm_num)
      (by
        have := roundNE_of_lt_half
          (((1 : ℚ) + 1 / 2 ^ 70) / 2 ^ ((0 : ℤ) - 52)) 4503599627370496
          (by norm_num) (by norm_num)
        rw [this])]
    norm_num
  have hcanon : canonicalizeAngle (FloatEnv.ieee id id id id) (-(1 / 2 ^ 70)) 1 = (0, 1) := by
    simp only [canonicalizeAngle, twoPi_ieee, hfmod]
    rw [if_pos (by norm_num)]
    simp only [FloatEnv.ieee, h1]
    rw [if_pos (le_refl _)]
    simp only [sub_self, roundBinary_zero, binary64, h2, h3]
    rw [show roundBinary 53 (-1074) ((0 : ℚ) - -(1 / 2 ^ 70)) = 1 / 2 ^ 70 from h2,
      show roundBinary 53 (-1074) ((1 : ℚ) + 1 / 2 ^ 70) = 1 from h3]
  refine ⟨?_, hcanon, ?_, ?_⟩
  · exact binary64_exact _ (-70) (-4503599627370496) (by norm_num)
      (by rw [abs_of_neg (by norm_num)]; norm_num)
      (by rw [abs_of_neg (by norm_num)]; norm_num) (by norm_num) (by norm_num)
  · rw [hcanon, twoPi_ieee]
    rintro ⟨n, hn⟩
    have hn' : (n : ℚ) * (884279719003555 / 2 ^ 47) = 1 / 2 ^ 70 := by
      rw [← hn]; norm_num
    have hp : (0 : ℚ) < n := by
      by_contra hcon
      have : (n : ℚ) * (884279719003555 / 2 ^ 47) ≤ 0 :=
        mul_nonpos_of_nonpos_of_nonneg (not_lt.mp hcon) (by norm_num)
      rw [hn'] at this
      norm_num at this
    have hp1 : (1 : ℤ) ≤ n := by exact_mod_cast hp
    have hp2 : (1 : ℚ) ≤ n := by exact_mod_cast hp1
    have : (1 : ℚ) * (884279719003555 / 2 ^ 47) ≤ (n : ℚ) * (884279719003555 / 2 ^ 47) :=
      mul_le_mul_of_nonneg_right hp2 (by norm_num)
    rw [hn'] at this
    norm_num at this
  · rw [hcanon]; norm_num

/-! ## Lemmas on `adjustEndAngle` -/

theorem adjustEndAngle_false {α : Type} [LinearOrderedField α] [FloorRing α]
    (E : FloatEnv α) (s e : α) :
    adjustEndAngle E s e false
      = if twoPi E ≤ E.rd (e - s) then E.rd (s + twoPi E)
        else if e < s then E.rd (s + E.rd (twoPi E - fmod (E.rd (s - e)) (twoPi E)))
        else e := by
  simp [adjustEndAngle]

theorem adjustEndAngle_true {α : Type} [LinearOrderedField α] [FloorRing α]
    (E : FloatEnv α) (s e : α) :
    adjustEndAngle E s e true
      = if twoPi E ≤ E.rd (s - e) then E.rd (s - twoPi E)
        else if s < e then E.rd (s - E.rd (twoPi E - fmod (E.rd (e - s)) (twoPi E)))
        else e := by
  simp [adjustEndAngle]

/-- The complement `twoPi - fmod x twoPi` of a rounded non-negative
difference, rounded, lies in `[0, twoPi]`. -/
theorem complement_range {α : Type} [LinearOrderedField α] [FloorRing α]
    (E : FloatEnv α) (d : α) (hd : 0 ≤ d)
    (hpos : 0 < twoPi E) (h0 : E.rd 0 = 0) (hT : E.rd (twoPi E) = twoPi E)
    (hmono : Monotone E.rd) :
    0 ≤ E.rd (twoPi E - fmod (E.rd d) (twoPi E)) ∧
      E.rd (twoPi E - fmod (E.rd d) (twoPi E)) ≤ twoPi E := by
  have hd0 : 0 ≤ E.rd d := by
    have := hmono hd
    rwa [h0] at this
  have hf0 := fmod_nonneg hd0 hpos
  obtain ⟨_, hf1⟩ := fmod_abs_lt (E.rd d) hpos
  constructor
  · have := hmono (show (0 : α) ≤ twoPi E - fmod (E.rd d) (twoPi E) by linarith)
    rwa [h0] at this
  · have := hmono (show twoPi E - fmod (E.rd d) (twoPi E) ≤ twoPi E by linarith)
    rwa [hT] at this

/-- For a monotone rounding that leaves `0`, `twoPi` and the two angles as
they are, the end angle returned by `adjustEndAngle` lies between the start
angle and the rounded `startAngle ± twoPi`. -/
theorem adjustEndAngle_bounds {α : Type} [LinearOrderedField α] [FloorRing α]
    (E : FloatEnv α) (s e : α)
    (hpos : 0 < twoPi E) (h0 : E.rd 0 = 0) (hT : E.rd (twoPi E) = twoPi E)
    (hmono : Monotone E.rd) (hs : E.rd s = s) (he : E.rd e = e) :
    (s ≤ adjustEndAngle E s e false ∧ adjustEndAngle E s e false ≤ E.rd (s + twoPi E)) ∧
    (E.rd (s - twoPi E) ≤ adjustEndAngle E s e true ∧ adjustEndAngle E s e true ≤ s) := by
  have hup : s ≤ E.rd (s + twoPi E) := by
    have := hmono (show s ≤ s + twoPi E by linarith)
    rwa [hs] at this
  have hdown : E.rd (s - twoPi E) ≤ s := by
    have := hmono (show s - twoPi E ≤ s by linarith)
    rwa [hs] at this
  constructor
  · rw [adjustEndAngle_false]
    split_ifs with h1 h2
    · exact ⟨hup, le_refl _⟩
    · obtain ⟨hc0, hc1⟩ := complement_range E (s - e) (by linarith) hpos h0 hT hmono
      constructor
      · have := hmono (show s ≤ s + E.rd (twoPi E - fmod (E.rd (s - e)) (twoPi E)) by linarith)
        rwa [hs] at this
      · exact hmono (by linarith)
    · have hlt : e - s < twoPi E := by
        by_contra hcon
        have := hmono (not_lt.mp hcon)
        rw [hT] at this
        exact h1 this
      refine ⟨not_lt.mp h2, ?_⟩
      have := hmono (show e ≤ s + twoPi E by linarith)
      rwa [he] at this
  · rw [adjustEndAngle_true]
    split_ifs with h1 h2
    · exact ⟨le_refl _, hdown⟩
    · obtain ⟨hc0, hc1⟩ := complement_range E (e - s) (by linarith) hpos h0 hT hmono
      constructor
      · exact hmono (by linarith)
      · have := hmono (show s - E.rd (twoPi E - fmod (E.rd (e - s)) (twoPi E)) ≤ s by linarith)
        rwa [hs] at this
    · have hlt : s - e < twoPi E := by
        by_contra hcon
        have := hmono (not_lt.mp hcon)
        rw [hT] at this
        exact h1 this
      refine ⟨?_, not_lt.mp h2⟩
      have := hmono (show s - twoPi E ≤ e by linarith)
      rwa [he] at this

/-- In exact arithmetic, outside the two full-circle clamps, `adjustEndAngle`
moves the end angle by a whole number of turns. -/
theorem adjustEndAngle_exact_multiple {α : Type} [LinearOrderedField α] [FloorRing α]
    (pi : α) (sqrt acos tan : α → α) (s e : α) :
    (e - s < pi * 2 → ∃ n : ℤ,
      adjustEndAngle (FloatEnv.exact pi sqrt acos tan) s e false - e = n * (pi * 2)) ∧
    (s - e < pi * 2 → ∃ n : ℤ,
      adjustEndAngle (FloatEnv.exact pi sqrt acos tan) s e true - e = n * (pi * 2)) := by
  have hf : adjustEndAngle (FloatEnv.exact pi sqrt acos tan) s e false
      = if pi * 2 ≤ e - s then s + pi * 2
        else if e < s then s + (pi * 2 - fmod (s - e) (pi * 2)) else e :=
    adjustEndAngle_false (FloatEnv.exact pi sqrt acos tan) s e
  have ht : adjustEndAngle (FloatEnv.exact pi sqrt acos tan) s e true
      = if pi * 2 ≤ s - e then s - pi * 2
        else if s < e then s - (pi * 2 - fmod (e - s) (pi * 2)) else e :=
    adjustEndAngle_true (FloatEnv.exact pi sqrt acos tan) s e
  constructor
  · intro h
    rw [hf, if_neg (not_le.mpr h)]
    split_ifs with h2
    · obtain ⟨n, hn⟩ := fmod_int_multiple (s - e) (pi * 2)
      refine ⟨n + 1, ?_⟩
      rw [hn]; push_cast; ring
    · exact ⟨0, by simp⟩
  · intro h
    rw [ht, if_neg (not_le.mpr h)]
    split_ifs with h2
    · obtain ⟨n, hn⟩ := fmod_int_multiple (e - s) (pi * 2)
      refine ⟨-(n + 1), ?_⟩
      rw [hn]; push_cast; ring
    · exact ⟨0, by simp⟩

/-! ## Finite `double`s -/

theorem binary64_DBL_MAX_add : binary64 (DBL_MAX + 7) = DBL_MAX := by
  unfold DBL_MAX
  rw [binary64_eval _ 1023 (2 ^ 53 - 1) (by norm_num)
    (by rw [abs_of_pos (by norm_num)]; norm_num)
    (by rw [abs_of_pos (by norm_num)]; norm_num) (by norm_num)
    (by
      have := roundNE_of_lt_half
        ((((2 : ℚ) ^ 53 - 1) * 2 ^ 971 + 7) / 2 ^ ((1023 : ℤ) - 52)) (2 ^ 53 - 1)
        (by norm_num) (by norm_num)
      rw [this])]
  norm_num

/-- Rounding a number at most `7` beyond `DBL_MAX` does not overflow. -/
theorem binary64_finite (x : ℚ) (h : |x| ≤ DBL_MAX + 7) : |binary64 x| ≤ DBL_MAX := by
  obtain ⟨h1, h2⟩ := abs_le.mp h
  rw [abs_le]
  constructor
  · have := binary64_monotone h1
    rw [binary64, roundBinary_neg, ← binary64, binary64_DBL_MAX_add] at this
    exact this
  · have := binary64_monotone h2
    rw [binary64_DBL_MAX_add] at this
    exact this

/-- The clockwise wrap of `adjustEndAngle`, for a monotone rounding. -/
theorem adjustEndAngle_clockwise_wrap {α : Type} [LinearOrderedField α] [FloorRing α]
    (E : FloatEnv α) (s e : α) (hpos : 0 < twoPi E) (h0 : E.rd 0 = 0) (hmono : Monotone E.rd)
    (hse : s > e) :
    adjustEndAngle E s e false
      = E.rd (s + E.rd (twoPi E - fmod (E.rd (s - e)) (twoPi E))) := by
  have hneg : E.rd (e - s) ≤ 0 := by
    have := hmono (show e - s ≤ 0 by linarith)
    rwa [h0] at this
  rw [adjustEndAngle_false, if_neg (by rw [not_le]; linarith), if_pos hse]

/-- In exact arithmetic `adjustEndAngle` keeps the arc within one turn in
the requested direction and, outside the two clamps, moves the end angle by a
whole number of turns. -/
theorem adjustEndAngle_exact {α : Type} [LinearOrderedField α] [FloorRing α]
    (pi : α) (sqrt acos tan : α → α) (s e : α) (hpi : 0 < pi) :
    (0 ≤ adjustEndAngle (FloatEnv.exact pi sqrt acos tan) s e false - s ∧
      adjustEndAngle (FloatEnv.exact pi sqrt acos tan) s e false - s ≤ pi * 2) ∧
    (-(pi * 2) ≤ adjustEndAngle (FloatEnv.exact pi sqrt acos tan) s e true - s ∧
      adjustEndAngle (FloatEnv.exact pi sqrt acos tan) s e true - s ≤ 0) ∧
    (s > e → adjustEndAngle (FloatEnv.exact pi sqrt acos tan) s e false
      = s + (pi * 2 - fmod (s - e) (pi * 2))) ∧
    (e - s < pi * 2 → ∃ n : ℤ,
      adjustEndAngle (FloatEnv.exact pi sqrt acos tan) s e false - e = n * (pi * 2)) ∧
    (s - e < pi * 2 → ∃ n : ℤ,
      adjustEndAngle (FloatEnv.exact pi sqrt acos tan) s e true - e = n * (pi * 2)) := by
  have hT2 : 0 < pi * 2 := by linarith
  obtain ⟨⟨hx1, hx2⟩, hx3, hx4⟩ :=
    adjustEndAngle_bounds (FloatEnv.exact pi sqrt acos tan) s e hT2 rfl rfl monotone_id rfl rfl
  have hx2' : adjustEndAngle (FloatEnv.exact pi sqrt acos tan) s e false ≤ s + pi * 2 := hx2
  have hx3' : s - pi * 2 ≤ adjustEndAngle (FloatEnv.exact pi sqrt acos tan) s e true := hx3
  obtain ⟨hm1, hm2⟩ := adjustEndAngle_exact_multiple pi sqrt acos tan s e
  refine ⟨⟨by linarith, by linarith⟩, ⟨by linarith, by linarith⟩, ?_, hm1, hm2⟩
  intro hse
  exact adjustEndAngle_clockwise_wrap (FloatEnv.exact pi sqrt acos tan) s e hT2 rfl
    monotone_id hse

/-- The finite `double`s `2^1023` and `-(2^1023)` have a difference that
overflows: it rounds above `DBL_MAX`. -/
theorem binary64_difference_overflows :
    binary64 (2 ^ 1023) = 2 ^ 1023 ∧ binary64 (-(2 ^ 1023)) = -(2 ^ 1023) ∧
    |(2 ^ 1023 : ℚ)| ≤ DBL_MAX ∧ |(-(2 ^ 1023) : ℚ)| ≤ DBL_MAX ∧
    DBL_MAX < binary64 (2 ^ 1023 - -(2 ^ 1023)) := by
  have h1 : binary64 (2 ^ 1023) = 2 ^ 1023 :=
    binary64_exact _ 1023 4503599627370496 (by norm_num)
      (by rw [abs_of_pos (by norm_num)]; norm_num)
      (by rw [abs_of_pos (by norm_num)]; norm_num) (by norm_num) (by norm_num)
  have h2 : binary64 (2 ^ 1023 - -(2 ^ 1023)) = 2 ^ 1023 - -(2 ^ 1023) :=
    binary64_exact _ 1024 4503599627370496 (by norm_num)
      (by rw [abs_of_pos (by norm_num)]; norm_num)
      (by rw [abs_of_pos (by norm_num)]; norm_num) (by norm_num) (by norm_num)
  refine ⟨h1, ?_, ?_, ?_, ?_⟩
  · rw [binary64, roundBinary_neg, ← binary64, h1]
  · rw [abs_of_pos (by norm_num)]; unfold DBL_MAX; norm_num
  · rw [abs_neg, abs_of_pos (by norm_num)]; unfold DBL_MAX; norm_num
  · rw [h2]; unfold DBL_MAX; norm_num

/-! ## Claim on `adjustEndAngle` -/

/-- C15 (amended): in IEEE `double` arithmetic, for `double`s `s`, `e` with
`s` finite (`|s| ≤ DBL_MAX`) and a difference that does not overflow
(`|s - e| ≤ DBL_MAX`), no operation of `adjustEndAngle` overflows, and the
end angle `e'` it returns satisfies
`s ≤ e' ≤ rd (s + twoPi)` when `counterclockwise` is false and
`rd (s - twoPi) ≤ e' ≤ s` when it is true, `rd` rounding to `double`; in the
clockwise case with `s > e` it is
`rd (s + rd (twoPi - fmod (rd (s - e)) twoPi))`.  In exact arithmetic (with
`0 < pi`): `0 ≤ e' - s ≤ 2 pi` clockwise, `-(2 pi) ≤ e' - s ≤ 0`
counterclockwise, `e' = s + (2 pi - fmod (s - e) (2 pi))` in the clockwise
case with `s > e`, and outside the two full-circle clamps `e' - e` is an
integer multiple of `2 pi`. -/
theorem adjustEndAngle_spec (sqrt sqrtf acos tan : ℚ → ℚ) (pi : ℚ) (sqrt' acos' tan' : ℚ → ℚ)
    (s e : ℚ) (hs : binary64 s = s) (he : binary64 e = e)
    (hsf : |s| ≤ DBL_MAX) (hfin : |s - e| ≤ DBL_MAX) (hpi : 0 < pi) :
    (|binary64 (e - s)| ≤ DBL_MAX ∧ |binary64 (s - e)| ≤ DBL_MAX ∧
      |binary64 (s + twoPi (FloatEnv.ieee sqrt sqrtf acos tan))| ≤ DBL_MAX ∧
      |binary64 (s - twoPi (FloatEnv.ieee sqrt sqrtf acos tan))| ≤ DBL_MAX ∧
      |binary64 (twoPi (FloatEnv.ieee sqrt sqrtf acos tan)
        - fmod (binary64 (s - e)) (twoPi (FloatEnv.ieee sqrt sqrtf acos tan)))| ≤ DBL_MAX ∧
      |binary64 (twoPi (FloatEnv.ieee sqrt sqrtf acos tan)
        - fmod (binary64 (e - s)) (twoPi (FloatEnv.ieee sqrt sqrtf acos tan)))| ≤ DBL_MAX ∧
      |adjustEndAngle (FloatEnv.ieee sqrt sqrtf acos tan) s e false| ≤ DBL_MAX ∧
      |adjustEndAngle (FloatEnv.ieee sqrt sqrtf acos tan) s e true| ≤ DBL_MAX) ∧
    ((s ≤ adjustEndAngle (FloatEnv.ieee sqrt sqrtf acos tan) s e false ∧
        adjustEndAngle (FloatEnv.ieee sqrt sqrtf acos tan) s e false
          ≤ binary64 (s + twoPi (FloatEnv.ieee sqrt sqrtf acos tan))) ∧
      (binary64 (s - twoPi (FloatEnv.ieee sqrt sqrtf acos tan))
          ≤ adjustEndAngle (FloatEnv.ieee sqrt sqrtf acos tan) s e true ∧
        adjustEndAngle (FloatEnv.ieee sqrt sqrtf acos tan) s e true ≤ s)) ∧
    (s > e → adjustEndAngle (FloatEnv.ieee sqrt sqrtf acos tan) s e false
      = binary64 (s + binary64 (twoPi (FloatEnv.ieee sqrt sqrtf acos tan)
          - fmod (binary64 (s - e)) (twoPi (FloatEnv.ieee sqrt sqrtf acos tan))))) ∧
    ((0 ≤ adjustEndAngle (FloatEnv.exact pi sqrt' acos' tan') s e false - s ∧
        adjustEndAngle (FloatEnv.exact pi sqrt' acos' tan') s e false - s ≤ pi * 2) ∧
      (-(pi * 2) ≤ adjustEndAngle (FloatEnv.exact pi sqrt' acos' tan') s e true - s ∧
        adjustEndAngle (FloatEnv.exact pi sqrt' acos' tan') s e true - s ≤ 0) ∧
      (s > e → adjustEndAngle (FloatEnv.exact pi sqrt' acos' tan') s e false
        = s + (pi * 2 - fmod (s - e) (pi * 2))) ∧
      (e - s < pi * 2 → ∃ n : ℤ,
        adjustEndAngle (FloatEnv.exact pi sqrt' acos' tan') s e false - e = n * (pi * 2)) ∧
      (s - e < pi * 2 → ∃ n : ℤ,
        adjustEndAngle (FloatEnv.exact pi sqrt' acos' tan') s e true - e = n * (pi * 2))) := by
  have hTv := twoPi_ieee sqrt sqrtf acos tan
  have hTpos := twoPi_ieee_pos sqrt sqrtf acos tan
  have hT7 : twoPi (FloatEnv.ieee sqrt sqrtf acos tan) < 7 := by rw [hTv]; norm_num
  have hD : (7 : ℚ) ≤ DBL_MAX := by unfold DBL_MAX; norm_num
  obtain ⟨hs1, hs2⟩ := abs_le.mp hsf
  have hes : |e - s| ≤ DBL_MAX := by rw [abs_sub_comm]; exact hfin
  have hf1 : |binary64 (e - s)| ≤ DBL_MAX := binary64_finite _ (by linarith)
  have hf2 : |binary64 (s - e)| ≤ DBL_MAX := binary64_finite _ (by linarith)
  have hf3 : |binary64 (s + twoPi (FloatEnv.ieee sqrt sqrtf acos tan))| ≤ DBL_MAX :=
    binary64_finite _ (by rw [abs_le]; constructor <;> linarith)
  have hf4 : |binary64 (s - twoPi (FloatEnv.ieee sqrt sqrtf acos tan))| ≤ DBL_MAX :=
    binary64_finite _ (by rw [abs_le]; constructor <;> linarith)
  have hcomp : ∀ d : ℚ, |binary64 (twoPi (FloatEnv.ieee sqrt sqrtf acos tan)
      - fmod (binary64 d) (twoPi (FloatEnv.ieee sqrt sqrtf acos tan)))| ≤ DBL_MAX := by
    intro d
    obtain ⟨hl, hu⟩ := fmod_abs_lt (binary64 d) hTpos
    exact binary64_finite _ (by rw [abs_le]; constructor <;> linarith)
  obtain ⟨⟨hb1, hb2⟩, hb3, hb4⟩ :=
    adjustEndAngle_bounds (FloatEnv.ieee sqrt sqrtf acos tan) s e hTpos
      (roundBinary_zero 53 (-1074)) (binary64_twoPi sqrt sqrtf acos tan) binary64_monotone hs he
  have hb2' : adjustEndAngle (FloatEnv.ieee sqrt sqrtf acos tan) s e false
      ≤ binary64 (s + twoPi (FloatEnv.ieee sqrt sqrtf acos tan)) := hb2
  have hb3' : binary64 (s - twoPi (FloatEnv.ieee sqrt sqrtf acos tan))
      ≤ adjustEndAngle (FloatEnv.ieee sqrt sqrtf acos tan) s e true := hb3
  refine ⟨⟨hf1, hf2, hf3, hf4, hcomp _, hcomp _, ?_, ?_⟩, ⟨⟨hb1, hb2'⟩, hb3', hb4⟩, ?_,
    adjustEndAngle_exact pi sqrt' acos' tan' s e hpi⟩
  · rw [abs_le]
    exact ⟨by linarith, by linarith [(abs_le.mp hf3).2]⟩
  · rw [abs_le]
    exact ⟨by linarith [(abs_le.mp hf4).1], by linarith⟩
  · intro hse
    exact adjustEndAngle_clockwise_wrap (FloatEnv.ieee sqrt sqrtf acos tan) s e hTpos
      (roundBinary_zero 53 (-1074)) binary64_monotone hse

/-- Witness of C15: in IEEE `double` arithmetic and in exact arithmetic with
`M_PI = 22/7`, at `startAngle = 2`, `endAngle = 1`. -/
theorem adjustEndAngle_spec_witness :
    ((2 ≤ adjustEndAngle (FloatEnv.ieee id id id id) 2 1 false ∧
        adjustEndAngle (FloatEnv.ieee id id id id) 2 1 false
          ≤ binary64 (2 + twoPi (FloatEnv.ieee id id id id))) ∧
      (binary64 (2 - twoPi (FloatEnv.ieee id id id id))
          ≤ adjustEndAngle (FloatEnv.ieee id id id id) 2 1 true ∧
        adjustEndAngle (FloatEnv.ieee id id id id) 2 1 true ≤ 2)) ∧
    (|adjustEndAngle (FloatEnv.ieee id id id id) 2 1 false| ≤ DBL_MAX ∧
      |adjustEndAngle (FloatEnv.ieee id id id id) 2 1 true| ≤ DBL_MAX) ∧
    adjustEndAngle (FloatEnv.ieee id id id id) 2 1 false
      = binary64 (2 + binary64 (twoPi (FloatEnv.ieee id id id id)
          - fmod (binary64 (2 - 1)) (twoPi (FloatEnv.ieee id id id id)))) ∧
    ((0 ≤ adjustEndAngle (FloatEnv.exact (22 / 7 : ℚ) id id id) 2 1 false - 2 ∧
        adjustEndAngle (FloatEnv.exact (22 / 7 : ℚ) id id id) 2 1 false - 2 ≤ 22 / 7 * 2) ∧
      (-(22 / 7 * 2) ≤ adjustEndAngle (FloatEnv.exact (22 / 7 : ℚ) id id id) 2 1 true - 2 ∧
        adjustEndAngle (FloatEnv.exact (22 / 7 : ℚ) id id id) 2 1 true - 2 ≤ 0) ∧
      adjustEndAngle (FloatEnv.exact (22 / 7 : ℚ) id id id) 2 1 false
        = 2 + (22 / 7 * 2 - fmod (2 - 1) (22 / 7 * 2)) ∧
      (∃ n : ℤ, adjustEndAngle (FloatEnv.exact (22 / 7 : ℚ) id id id) 2 1 false - 1
        = n * (22 / 7 * 2)) ∧
      (∃ n : ℤ, adjustEndAngle (FloatEnv.exact (22 / 7 : ℚ) id id id) 2 1 true - 1
        = n * (22 / 7 * 2))) := by
  obtain ⟨⟨_, _, _, _, _, _, hf1, hf2⟩, h1, h2, h3, h4, h5, h6, h7⟩ :=
    adjustEndAngle_spec id id id id (22 / 7 : ℚ) id id id 2 1
      (binary64_exact 2 1 4503599627370496 (by norm_num)
        (by rw [abs_of_pos (by norm_num)]; norm_num)
        (by rw [abs_of_pos (by norm_num)]; norm_num) (by norm_num) (by norm_num))
      (binary64_exact 1 0 4503599627370496 (by norm_num)
        (by rw [abs_of_pos (by norm_num)]; norm_num)
        (by rw [abs_of_pos (by norm_num)]; norm_num) (by norm_num) (by norm_num))
      (by rw [abs_of_pos (by norm_num)]; unfold DBL_MAX; norm_num)
      (by rw [abs_of_pos (by norm_num)]; unfold DBL_MAX; norm_num)
      (by norm_num)
  exact ⟨h1, ⟨hf1, hf2⟩, h2 (by norm_num), h3, h4, h5 (by norm_num), h6 (by norm_num),
    h7 (by norm_num)⟩

/-- C15 as stated fails in `double` arithmetic.  With `startAngle = 0`,
`endAngle = 3602879701896397 / 2^55` (the `double` nearest `0.1`) and
`counterclockwise` true, outside the clamps, the returned end angle is
`-(6961647761344178 / 2^50)`, and its distance to `endAngle` is not an
integer multiple of `twoPi`.  With `startAngle = -(3602879701896397 / 2^55)`,
`endAngle = 7` and `counterclockwise` false the returned end angle is
`6961647761344178 / 2^50`, more than `twoPi` above `startAngle`. -/
theorem adjustEndAngle_counterexample :
    binary64 (3602879701896397 / 2 ^ 55) = 3602879701896397 / 2 ^ 55 ∧
    adjustEndAngle (FloatEnv.ieee id id id id) 0 (3602879701896397 / 2 ^ 55) true
      = -(6961647761344178 / 2 ^ 50) ∧
    (0 : ℚ) - 3602879701896397 / 2 ^ 55 < twoPi (FloatEnv.ieee id id id id) ∧
    (¬ ∃ n : ℤ, adjustEndAngle (FloatEnv.ieee id id id id) 0 (3602879701896397 / 2 ^ 55) true
        - 3602879701896397 / 2 ^ 55 = n * twoPi (FloatEnv.ieee id id id id)) ∧
    adjustEndAngle (FloatEnv.ieee id id id id) (-(3602879701896397 / 2 ^ 55)) 7 false
      = 6961647761344178 / 2 ^ 50 ∧
    twoPi (FloatEnv.ieee id id id id)
      < adjustEndAngle (FloatEnv.ieee id id id id) (-(3602879701896397 / 2 ^ 55)) 7 false
        - -(3602879701896397 / 2 ^ 55) := by
  have he : binary64 (3602879701896397 / 2 ^ 55) = 3602879701896397 / 2 ^ 55 :=
    binary64_exact _ (-4) 7205759403792794 (by norm_num)
      (by rw [abs_of_pos (by norm_num)]; norm_num)
      (by rw [abs_of_pos (by norm_num)]; norm_num) (by norm_num) (by norm_num)
  have hne : binary64 ((0 : ℚ) - 3602879701896397 / 2 ^ 55) = -(3602879701896397 / 2 ^ 55) := by
    rw [binary64_exact _ (-4) (-7205759403792794) (by norm_num)
      (by rw [abs_of_neg (by norm_num)]; norm_num)
      (by rw [abs_of_neg (by norm_num)]; norm_num) (by norm_num) (by norm_num)]
    norm_num
  have hfm : fmod (3602879701896397 / 2 ^ 55 : ℚ) (884279719003555 / 2 ^ 47)
      = 3602879701896397 / 2 ^ 55 :=
    fmod_eq_self (by norm_num) (by norm_num)
  have hh : binary64 ((884279719003555 / 2 ^ 47 : ℚ) - 3602879701896397 / 2 ^ 55)
      = 6961647761344178 / 2 ^ 50 := by
    rw [binary64_eval _ 2 6961647761344178 (by norm_num)
      (by rw [abs_of_pos (by norm_num)]; norm_num)
      (by rw [abs_of_pos (by norm_num)]; norm_num) (by norm_num)
      (by
        have := roundNE_of_gt_half
          (((884279719003555 / 2 ^ 47 : ℚ) - 3602879701896397 / 2 ^ 55) / 2 ^ ((2 : ℤ) - 52))
          6961647761344177 (by norm_num) (by norm_num)
        rw [this]; norm_num)]
    norm_num
  have hh' : binary64 (-(3602879701896397 / 2 ^ 55) + (884279719003555 / 2 ^ 47 : ℚ))
      = 6961647761344178 / 2 ^ 50 := by
    rw [← hh]; congr 1; ring
  have hnh : binary64 ((0 : ℚ) - 6961647761344178 / 2 ^ 50) = -(6961647761344178 / 2 ^ 50) := by
    rw [binary64_exact _ 2 (-6961647761344178) (by norm_num)
      (by rw [abs_of_neg (by norm_num)]; norm_num)
      (by rw [abs_of_neg (by norm_num)]; norm_num) (by norm_num) (by norm_num)]
    norm_num
  have h7 : binary64 (7 : ℚ) = 7 :=
    binary64_exact 7 2 7881299347898368 (by norm_num)
      (by rw [abs_of_pos (by norm_num)]; norm_num)
      (by rw [abs_of_pos (by norm_num)]; norm_num) (by norm_num) (by norm_num)
  have h71 : (884279719003555 / 2 ^ 47 : ℚ) ≤ binary64 (7 - -(3602879701896397 / 2 ^ 55)) := by
    have := binary64_monotone (show (7 : ℚ) ≤ 7 - -(3602879701896397 / 2 ^ 55) by norm_num)
    rw [h7] at this
    exact le_trans (by norm_num) this
  have hA : adjustEndAngle (FloatEnv.ieee id id id id) 0 (3602879701896397 / 2 ^ 55) true
      = -(6961647761344178 / 2 ^ 50) := by
    rw [adjustEndAngle_true, twoPi_ieee]
    show (if (884279719003555 / 2 ^ 47 : ℚ) ≤ binary64 (0 - 3602879701896397 / 2 ^ 55) then _
      else if (0 : ℚ) < 3602879701896397 / 2 ^ 55 then
        binary64 (0 - binary64 (884279719003555 / 2 ^ 47
          - fmod (binary64 (3602879701896397 / 2 ^ 55 - 0)) (884279719003555 / 2 ^ 47)))
      else _) = _
    rw [hne, if_neg (by norm_num), if_pos (by norm_num), sub_zero, he, hfm, hh, hnh]
  have hB : adjustEndAngle (FloatEnv.ieee id id id id) (-(3602879701896397 / 2 ^ 55)) 7 false
      = 6961647761344178 / 2 ^ 50 := by
    rw [adjustEndAngle_false, twoPi_ieee]
    show (if (884279719003555 / 2 ^ 47 : ℚ) ≤ binary64 (7 - -(3602879701896397 / 2 ^ 55)) then
        binary64 (-(3602879701896397 / 2 ^ 55) + 884279719003555 / 2 ^ 47)
      else _) = _
    rw [if_pos h71, hh']
  refine ⟨he, hA, by rw [twoPi_ieee]; norm_num, ?_, hB, by rw [hB, twoPi_ieee]; norm_num⟩
  rw [hA, twoPi_ieee]
  rintro ⟨n, hn⟩
  have hm : ((n + 1 : ℤ) : ℚ) * (884279719003555 / 2 ^ 47) = -(13 / 2 ^ 55) := by
    push_cast
    rw [add_mul, ← hn]; norm_num
  rcases le_or_lt 0 (n + 1) with hpos | hneg
  · have h1 : (0 : ℚ) ≤ ((n + 1 : ℤ) : ℚ) := by exact_mod_cast hpos
    have : (0 : ℚ) ≤ ((n + 1 : ℤ) : ℚ) * (884279719003555 / 2 ^ 47) :=
      mul_nonneg h1 (by norm_num)
    rw [hm] at this
    norm_num at this
  · have h1 : n + 1 ≤ -1 := by omega
    have h2 : ((n + 1 : ℤ) : ℚ) ≤ -1 := by exact_mod_cast h1
    have : ((n + 1 : ℤ) : ℚ) * (884279719003555 / 2 ^ 47) ≤ -1 * (884279719003555 / 2 ^ 47) :=
      mul_le_mul_of_nonneg_right h2 (by norm_num)
    rw [hm] at this
    norm_num at this

/-! ## Lemmas on the `float` rounding -/

theorem binary32_monotone : Monotone binary32 :=
  roundBinary_monotone 24 (by norm_num) (-149)

/-- A number with at most 24 significant bits at exponent `k` is a `float`. -/
theorem binary32_exact (q : ℚ) (k n : ℤ) (hq : q ≠ 0) (hlo : (2 : ℚ) ^ k ≤ |q|)
    (hhi : |q| < (2 : ℚ) ^ (k + 1)) (hk : -149 ≤ k - 23) (hn : q / 2 ^ (k - 23) = (n : ℚ)) :
    binary32 q = q := by
  rw [binary32_eval q k n hq hlo hhi hk (by rw [hn, roundNE_intCast]), ← hn]
  have : (2 : ℚ) ^ (k - 23) ≠ 0 := zpow_ne_zero _ (by norm_num)
  field_simp

/-- No `float` equals the `double` `M_PI * 2`: the test `M_PI * 2 != radius`
of `js_canvas_arc_to` holds for every `float` radius. -/
theorem binary32_ne_twoPi (q : ℚ) : binary32 q ≠ 884279719003555 / 2 ^ 47 := by
  have hlo : binary32 (13176794 / 2 ^ 21) = 13176794 / 2 ^ 21 :=
    binary32_exact _ 2 13176794 (by norm_num)
      (by rw [abs_of_pos (by norm_num)]; norm_num)
      (by rw [abs_of_pos (by norm_num)]; norm_num) (by norm_num) (by norm_num)
  have hhi : binary32 (13176795 / 2 ^ 21) = 13176795 / 2 ^ 21 :=
    binary32_exact _ 2 13176795 (by norm_num)
      (by rw [abs_of_pos (by norm_num)]; norm_num)
      (by rw [abs_of_pos (by norm_num)]; norm_num) (by norm_num) (by norm_num)
  intro h
  rcases le_or_lt q (13176794 / 2 ^ 21) with h1 | h1
  · have := binary32_monotone h1
    rw [hlo, h] at this
    norm_num at this
  rcases le_or_lt (13176795 / 2 ^ 21) q with h2 | h2
  · have := binary32_monotone h2
    rw [hhi, h] at this
    norm_num at this
  have hq0 : (0 : ℚ) < q := lt_trans (by norm_num) h1
  have hev := binary32_eval q 2 (roundNE (q / 2 ^ ((2 : ℤ) - 23))) (ne_of_gt hq0)
    (by rw [abs_of_pos hq0]; exact le_trans (by norm_num) h1.le)
    (by rw [abs_of_pos hq0]; exact lt_trans h2 (by norm_num)) (by norm_num) rfl
  rw [h] at hev
  generalize roundNE (q / 2 ^ ((2 : ℤ) - 23)) = r at hev
  have h23 : (2 : ℚ) ^ ((2 : ℤ) - 23) = 1 / 2 ^ 21 := by norm_num
  rw [h23] at hev
  have hint : ((r * 2 ^ 26 : ℤ) : ℚ) = (884279719003555 : ℤ) := by
    push_cast
    linarith
  have hint' : r * 2 ^ 26 = 884279719003555 := by
    exact_mod_cast hint
  omega

/-- The general case of `js_canvas_arc_to` when the test `M_PI * 2 != radius`
holds: one line-to, then the arc in the direction of the flag. -/
theorem js_canvas_arc_to_general {α : Type} [LinearOrderedField α] (E : FloatEnv α)
    (px py off a0 a1 a2 a3 a4 : α)
    (hnd : ¬ ((E.rf a0 = E.rf px ∧ E.rf a1 = E.rf py) ∨
      (E.rf a0 = E.rf a2 ∧ E.rf a1 = E.rf a3) ∨ E.rf a4 = 0))
    (hm1 : ¬ -1 = arc_to_cos_phi E ⟨(px, py), off⟩ a0 a1 a2 a3)
    (h1 : ¬ 1 = arc_to_cos_phi E ⟨(px, py), off⟩ a0 a1 a2 a3)
    (hr : E.rd (E.M_PI * 2) ≠ E.rf a4) :
    js_canvas_arc_to E (some ⟨(px, py), off⟩) (some a0) (some a1) (some a2) (some a3) (some a4)
      = (.JS_UNDEFINED,
          [.line_to (arc_to_general_case E ⟨(px, py), off⟩ a0 a1 a2 a3 a4).t_p1p0.x
              (arc_to_general_case E ⟨(px, py), off⟩ a0 a1 a2 a3 a4).t_p1p0.y,
            if arc_to_anticlockwise E (arc_to_general_case E ⟨(px, py), off⟩ a0 a1 a2 a3 a4).sa
                (arc_to_general_case E ⟨(px, py), off⟩ a0 a1 a2 a3 a4).ea = true then
              .arc_negative (arc_to_general_case E ⟨(px, py), off⟩ a0 a1 a2 a3 a4).p.x
                (arc_to_general_case E ⟨(px, py), off⟩ a0 a1 a2 a3 a4).p.y
                (arc_to_general_case E ⟨(px, py), off⟩ a0 a1 a2 a3 a4).radius
                (arc_to_general_case E ⟨(px, py), off⟩ a0 a1 a2 a3 a4).sa
                (arc_to_general_case E ⟨(px, py), off⟩ a0 a1 a2 a3 a4).ea
            else
              .arc (arc_to_general_case E ⟨(px, py), off⟩ a0 a1 a2 a3 a4).p.x
                (arc_to_general_case E ⟨(px, py), off⟩ a0 a1 a2 a3 a4).p.y
                (arc_to_general_case E ⟨(px, py), off⟩ a0 a1 a2 a3 a4).radius
                (arc_to_general_case E ⟨(px, py), off⟩ a0 a1 a2 a3 a4).sa
                (arc_to_general_case E ⟨(px, py), off⟩ a0 a1 a2 a3 a4).ea]) := by
  have hr' : E.rd (E.M_PI * 2)
      ≠ (arc_to_general_case E ⟨(px, py), off⟩ a0 a1 a2 a3 a4).radius := hr
  rw [js_canvas_arc_to_cases, if_neg hnd, if_neg hm1, if_neg h1]
  by_cases hf : arc_to_anticlockwise E (arc_to_general_case E ⟨(px, py), off⟩ a0 a1 a2 a3 a4).sa
      (arc_to_general_case E ⟨(px, py), off⟩ a0 a1 a2 a3 a4).ea = true
  · rw [if_pos ⟨hf, hr'⟩, if_pos hf]
  · rw [if_neg (fun h => hf h.1), if_neg hf]

theorem sqrtBinary_eval (p : ℕ) (emin : ℤ) (x : ℚ) (k h : ℤ) (m s : ℕ) (hx : 0 < x)
    (hlo : (2 : ℚ) ^ k ≤ x) (hhi : x < (2 : ℚ) ^ (k + 1))
    (hh : (2 * ((p : ℤ) + 4) - k + 1) / 2 = h) (hm : ⌊x * 2 ^ (2 * h)⌋.toNat = m)
    (hs : Nat.sqrt m = s) :
    sqrtBinary p emin x
      = roundBinary p emin
          ((if ((s * s : ℕ) : ℚ) = x * 2 ^ (2 * h) then (s : ℚ) else (s : ℚ) + 1 / 2) / 2 ^ h) := by
  have h1 : k ≤ Int.log 2 x :=
    (Int.zpow_le_iff_le_log (by norm_num) hx).mp (by exact_mod_cast hlo)
  have h2 : Int.log 2 x < k + 1 :=
    (Int.lt_zpow_iff_log_lt (by norm_num) hx).mp (by exact_mod_cast hhi)
  have h3 : Int.log 2 x = k := by omega
  simp only [sqrtBinary, not_le.mpr hx, if_false, h3, hh, hm, hs]

/-- The `float` square root of `2` is `11863283 / 2^23`. -/
theorem sqrtf_two : sqrtBinary 24 (-149) 2 = 11863283 / 2 ^ 23 := by
  rw [sqrtBinary_eval 24 (-149) 2 1 28 144115188075855872 379625062 (by norm_num) (by norm_num)
    (by norm_num) (by norm_num) (by norm_num; rfl)
    (by symm; rw [Nat.eq_sqrt]; constructor <;> norm_num)]
  rw [if_neg (by norm_num)]
  show binary32 _ = _
  rw [binary32_eval _ 0 11863283 (by norm_num)
    (by rw [abs_of_pos (by norm_num)]; norm_num)
    (by rw [abs_of_pos (by norm_num)]; norm_num) (by norm_num)
    (roundNE_of_lt_half _ 11863283 (by norm_num) (by norm_num))]
  norm_num

/-! ## Evaluating `cos_phi` -/

theorem binary32_of_eq (a v : ℚ) (h : a = v) (hv : binary32 v = v) : binary32 a = v := by
  rw [h, hv]

theorem binary32_zero : binary32 0 = 0 :=
  roundBinary_zero 24 (-149)

theorem binary32_one : binary32 1 = 1 :=
  binary32_exact 1 0 8388608 (by norm_num) (by rw [abs_of_pos (by norm_num)]; norm_num)
    (by rw [abs_of_pos (by norm_num)]; norm_num) (by norm_num) (by norm_num)

theorem binary32_two : binary32 2 = 2 :=
  binary32_exact 2 1 8388608 (by norm_num) (by rw [abs_of_pos (by norm_num)]; norm_num)
    (by rw [abs_of_pos (by norm_num)]; norm_num) (by norm_num) (by norm_num)

theorem binary32_neg_one : binary32 (-1) = -1 :=
  binary32_exact (-1) 0 (-8388608) (by norm_num) (by rw [abs_of_neg (by norm_num)]; norm_num)
    (by rw [abs_of_neg (by norm_num)]; norm_num) (by norm_num) (by norm_num)

theorem binary32_neg_two : binary32 (-2) = -2 :=
  binary32_exact (-2) 1 (-8388608) (by norm_num) (by rw [abs_of_neg (by norm_num)]; norm_num)
    (by rw [abs_of_neg (by norm_num)]; norm_num) (by norm_num) (by norm_num)

/-- For the current point `(0, 0)` and `arcTo(1, 1, 2, 2, radius)`, three
points on a diagonal with `P1` in the middle, the `float` computation of
`cos_phi` gives `-(8388609 / 2^23)`, the `float` just below `-1`. -/
theorem arc_to_cos_phi_diagonal (sqrt acos tan : ℚ → ℚ) :
    arc_to_cos_phi (FloatEnv.ieee sqrt (sqrtBinary 24 (-149)) acos tan) ⟨(0, 0), 0⟩ 1 1 2 2
      = -(8388609 / 2 ^ 23) := by
  have e1 : binary32 ((0 : ℚ) - 1) = -1 := binary32_of_eq _ _ (by norm_num) binary32_neg_one
  have e2 : binary32 ((2 : ℚ) - 1) = 1 := binary32_of_eq _ _ (by norm_num) binary32_one
  have e3 : binary32 ((-1 : ℚ) * -1) = 1 := binary32_of_eq _ _ (by norm_num) binary32_one
  have e4 : binary32 ((1 : ℚ) * 1) = 1 := binary32_of_eq _ _ (by norm_num) binary32_one
  have e5 : binary32 ((1 : ℚ) + 1) = 2 := binary32_of_eq _ _ (by norm_num) binary32_two
  have e6 : binary32 ((-1 : ℚ) * 1) = -1 := binary32_of_eq _ _ (by norm_num) binary32_neg_one
  have e7 : binary32 ((-1 : ℚ) + -1) = -2 := binary32_of_eq _ _ (by norm_num) binary32_neg_two
  have e8 : binary32 ((11863283 / 2 ^ 23 : ℚ) * (11863283 / 2 ^ 23)) = 16777215 / 2 ^ 23 := by
    rw [binary32_eval _ 0 16777215 (by norm_num)
      (by rw [abs_of_pos (by norm_num)]; norm_num)
      (by rw [abs_of_pos (by norm_num)]; norm_num) (by norm_num)
      (roundNE_of_lt_half _ 16777215 (by norm_num) (by norm_num))]
    norm_num
  have e9 : binary32 ((-2 : ℚ) / (16777215 / 2 ^ 23)) = -(8388609 / 2 ^ 23) := by
    rw [binary32_eval _ 0 (-8388609) (by norm_num)
      (by rw [abs_of_neg (by norm_num)]; norm_num)
      (by rw [abs_of_neg (by norm_num)]; norm_num) (by norm_num)
      (roundNE_of_lt_half _ (-8388609) (by norm_num) (by norm_num))]
    norm_num
  simp only [arc_to_cos_phi, FloatEnv.ieee, binary32_zero, binary32_one, binary32_two, e1, e2, e3,
    e4, e5, e6, e7, sqrtf_two, e8, e9]

/-- C11 on the code: for the current point `(0, 0)` and
`arcTo(1, 1, 2, 2, 1)`, three distinct collinear points with `P1` strictly
between `P0` and `P2`, the `float` computation gives
`cos_phi = -(8388609 / 2^23)`, which is below `-1`; the test `-1 == cos_phi`
fails, and `js_canvas_arc_to` issues a line-to the computed tangent point
followed by an arc, not the single line-to `P1 = (1, 1)`. -/
theorem arc_to_collinear_diagonal (sqrt acos tan : ℚ → ℚ) :
    arc_to_cos_phi (FloatEnv.ieee sqrt (sqrtBinary 24 (-149)) acos tan) ⟨(0, 0), 0⟩ 1 1 2 2
      = -(8388609 / 2 ^ 23) ∧
    (-(8388609 / 2 ^ 23) : ℚ) < -1 ∧
    (js_canvas_arc_to (FloatEnv.ieee sqrt (sqrtBinary 24 (-149)) acos tan) (some ⟨(0, 0), 0⟩)
      (some 1) (some 1) (some 2) (some 2) (some 1)).2.length = 2 ∧
    js_canvas_arc_to (FloatEnv.ieee sqrt (sqrtBinary 24 (-149)) acos tan) (some ⟨(0, 0), 0⟩)
      (some 1) (some 1) (some 2) (some 2) (some 1) ≠ (.JS_UNDEFINED, [.line_to 1 1]) := by
  have hcos := arc_to_cos_phi_diagonal sqrt acos tan
  have hcall := js_canvas_arc_to_general (FloatEnv.ieee sqrt (sqrtBinary 24 (-149)) acos tan)
    0 0 0 1 1 2 2 1
    (by
      simp only [FloatEnv.ieee, binary32_zero, binary32_one, binary32_two]
      norm_num)
    (by rw [hcos]; norm_num) (by rw [hcos]; norm_num)
    (fun h => binary32_ne_twoPi 1 (h.symm.trans (twoPi_ieee _ _ _ _)))
  refine ⟨hcos, by norm_num, ?_, ?_⟩
  · rw [hcall]; rfl
  · rw [hcall]
    intro h
    have := congrArg (fun r => r.2.length) h
    simp at this

end Canvas
